import Mathlib

/-!
Verification model of the STATESTUDIO replay playback engine and
VisualState validation pipeline.

The definitions below are shallow embeddings of the TypeScript source:
  * JS `number` values are modelled by `JSNum` (NaN, ±Infinity, or a finite
    rational); frame timestamps, playback times and durations that the code
    obtains from validated responses are modelled as rationals where the
    surrounding code guarantees finiteness.
  * `findFrameIndex`, `clamp`, the playback tick, `play`, `step`
    (hooks/useReplayPlayer.ts) are translated as pure state transformers.
  * `useReplayEpisode`'s load/reconcile logic (hooks/useReplayEpisode.ts)
    becomes `reconcileEpisode` plus an event-trace semantics of the
    session state updates.
  * The zod schema and normalizers of lib/visualState.ts become a parser
    over a JSON-like value type `JVal` plus `normalizeState`.
-/

/-- Model of a JavaScript `number`: NaN, positive/negative infinity, or a
finite value (modelled as an exact rational). -/
inductive JSNum where
  | nan
  | inf
  | ninf
  | fin (q : ℚ)
  deriving DecidableEq, Repr

namespace JSNum

/-- Models `Number.isFinite`. -/
def isFinite : JSNum → Bool
  | fin _ => true
  | _ => false

/-- The JS comparison `x > 0` (false on NaN). -/
def gt0 : JSNum → Bool
  | fin q => decide (0 < q)
  | inf => true
  | _ => false

end JSNum

/-- Models `Math.max` on JS numbers: NaN-propagating, otherwise the larger value. -/
def jsMax : JSNum → JSNum → JSNum
  | .nan, _ => .nan
  | _, .nan => .nan
  | .inf, _ => .inf
  | _, .inf => .inf
  | .ninf, b => b
  | a, .ninf => a
  | .fin p, .fin q => .fin (max p q)

/-- Models `Math.min` on JS numbers: NaN-propagating, otherwise the smaller value. -/
def jsMin : JSNum → JSNum → JSNum
  | .nan, _ => .nan
  | _, .nan => .nan
  | .ninf, _ => .ninf
  | _, .ninf => .ninf
  | .inf, b => b
  | a, .inf => a
  | .fin p, .fin q => .fin (min p q)

/-- The JS idiom `x || d` applied to numbers: `x` is falsy exactly when it
is NaN or (±)0, in which case the default `d` is produced. -/
def jsOr (x d : JSNum) : JSNum :=
  match x with
  | .nan => d
  | .fin q => if q = 0 then d else .fin q
  | other => other

/-- Models `clamp(value, min, max) = Math.min(max, Math.max(min, value))`
(useReplayPlayer.ts / visualState.ts). -/
def jsClamp (value lo hi : JSNum) : JSNum := jsMin hi (jsMax lo value)

/-- One recorded replay frame, reduced to the data the playback engine
reads: its timestamp `t` (a finite number, guaranteed by the response
validator's `assertNumber`) and an opaque payload standing for the rest of
the `ReplayFrame` record. -/
structure RFrame where
  t : ℚ
  payload : Nat
  deriving DecidableEq, Repr

/-- Models `[...frames].sort((a, b) => a.t - b.t)`: a stable ascending sort by
timestamp, as specified for `Array.prototype.sort`. -/
def sortedFrames (frames : List RFrame) : List RFrame :=
  frames.mergeSort (fun a b => decide (a.t ≤ b.t))

/-- Models `clamp` from useReplayPlayer.ts on finite numbers. -/
def clampQ (value lo hi : ℚ) : ℚ := min hi (max lo value)

/-- The loop body of `findFrameIndex`: walk the frames in order keeping the
index of the last frame with `frames[i].t <= t`, stopping at the first
frame beyond `t`.  `i` is the index of the head of the remaining list,
`best` the best index found so far. -/
def findLoop (t : ℚ) : List RFrame → Nat → Nat → Nat
  | [], _, best => best
  | f :: rest, i, best => if f.t ≤ t then findLoop t rest (i + 1) i else best

/-- Models `findFrameIndex(frames, t)` from useReplayPlayer.ts. -/
def findFrameIndex (frames : List RFrame) (t : ℚ) : Nat :=
  if frames.length = 0 then 0 else findLoop t frames 0 0

/-- The playback clock state managed by `useReplayPlayer`. -/
structure ClockState where
  isPlaying : Bool
  currentTime : ℚ
  currentIndex : Nat
  deriving DecidableEq, Repr

/-- One advancement tick of the playback clock (the `tick` callback of the
playing effect in useReplayPlayer.ts): when playing, advance by
`delta * speed`, clamp into `[0, duration]`, recompute the frame index, and
pause when the new time has reached the duration.  When not playing the
effect is not scheduled, so the state is unchanged. -/
def tick (duration speed : ℚ) (frames : List RFrame) (s : ClockState) (delta : ℚ) : ClockState :=
  if s.isPlaying then
    let next := clampQ (s.currentTime + delta * speed) 0 duration
    { isPlaying := if next ≥ duration then false else s.isPlaying,
      currentTime := next,
      currentIndex := findFrameIndex frames next }
  else s

/-- Run a sequence of advancement ticks. -/
def runTicks (duration speed : ℚ) (frames : List RFrame) (s : ClockState) (deltas : List ℚ) :
    ClockState :=
  deltas.foldl (tick duration speed frames) s

/-- Models `play = () => setIsPlaying(true)` (useReplayPlayer.ts). -/
def play (s : ClockState) : ClockState := { s with isPlaying := true }

/-- Models `pause = () => setIsPlaying(false)` (useReplayPlayer.ts). -/
def pause (s : ClockState) : ClockState := { s with isPlaying := false }

/-- Models `scrub(t)` from useReplayPlayer.ts. -/
def scrub (duration : ℚ) (frames : List RFrame) (s : ClockState) (t : ℚ) : ClockState :=
  let clamped := clampQ t 0 duration
  { s with currentTime := clamped, currentIndex := findFrameIndex frames clamped }

/-- Integer clamp, used for `step`'s index arithmetic which happens in JS
number (integer) arithmetic and may produce `-1` on an empty list. -/
def iClamp (v lo hi : ℤ) : ℤ := min hi (max lo v)

/-- Models `sortedFrames[i]` for a possibly negative or out-of-range JS index:
`undefined` (here `none`) outside `[0, length)`. -/
def frameAt (frames : List RFrame) (i : ℤ) : Option RFrame :=
  if h : 0 ≤ i ∧ i.toNat < frames.length then some (frames.get ⟨i.toNat, h.2⟩) else none

/-- Models `step(deltaFrames)` from useReplayPlayer.ts: clamp the new index into
`[0, frames.length - 1]` (note: `-1` when the list is empty), and set the
time to that frame's `t`, falling back to `0` when it is undefined.
Returns the `(currentIndex, currentTime)` pair written back. -/
def stepAt (frames : List RFrame) (currentIndex delta : ℤ) : ℤ × ℚ :=
  let nextIndex := iClamp (currentIndex + delta) 0 ((frames.length : ℤ) - 1)
  (nextIndex, ((frameAt frames nextIndex).map RFrame.t).getD 0)

/-- A `ReplayEpisode` as returned by `getEpisode` (lib/api/replayApi.ts):
the duration is a JS number that the validator only guarantees to be
non-NaN, frames carry finite timestamps. -/
structure JEpisode where
  episode_id : String
  duration : JSNum
  frames : List RFrame
  deriving DecidableEq, Repr

/-- The episode post-processing done by `useReplayEpisode.load` after
`getEpisode` resolves: sort the frames by `t`, and reconcile the duration
(`Number.isFinite(data.duration) && data.duration > 0 ? data.duration :
lastT`, then `duration > 0 ? duration : 0`). -/
def reconcileEpisode (e : JEpisode) : JEpisode :=
  let frames := sortedFrames e.frames
  let lastT : ℚ := ((frames.getLast?).map RFrame.t).getD 0
  let duration : JSNum :=
    if e.duration.isFinite && e.duration.gt0 then e.duration else .fin lastT
  { e with
    frames := frames,
    duration := if duration.gt0 then duration else .fin 0 }

/-- The observable state of `useReplayEpisode`. -/
structure SessionState where
  loading : Bool
  error : Option String
  episode : Option JEpisode
  deriving DecidableEq, Repr

/-- Events affecting the session state: a `load(id)` call starting
(`setLoading(true); setError(null)`), and the asynchronous resolution of
some previously issued load with the fetched episode
(`setEpisode(reconciled); setLoading(false)`).  The hook attaches no
request identity or cancellation to a load, so every resolution writes its
episode unconditionally, regardless of which call issued it. -/
inductive SessionEvent where
  | issue (id : String)
  | resolveOk (ep : JEpisode)
  deriving DecidableEq, Repr

/-- State update for one session event, exactly as the `load` callback of
useReplayEpisode.ts performs it. -/
def applyEvent (s : SessionState) : SessionEvent → SessionState
  | .issue _ => { s with loading := true, error := none }
  | .resolveOk ep => { s with loading := false, episode := some (reconcileEpisode ep) }

/-- Run a trace of session events from an initial state. -/
def runSession (events : List SessionEvent) (s : SessionState) : SessionState :=
  events.foldl applyEvent s

/-- The maximum frame timestamp of a list of frames (`0` when empty):
the reference value the duration invariant speaks about. -/
def maxT (frames : List RFrame) : ℚ := (frames.map RFrame.t).foldr max 0

/-- Models `damp` (components/visual/damp.ts): exponential approach of `current`
toward `target` with rate constant `lambda` over elapsed time `dt`. -/
noncomputable def damp (current target lambda dt : ℝ) : ℝ :=
  current + (target - current) * (1 - Real.exp (-(lambda * dt)))

/-- Models `smoothValue` (visual smoothing helper): the identical exponential
smoothing primitive with the rate parameter named `speed`. -/
noncomputable def smoothValue (current target speed delta : ℝ) : ℝ :=
  current + (target - current) * (1 - Real.exp (-(speed * delta)))

/-- Three concrete frames at t = 0, 2, 5 (spec §8 scenario 9). -/
def exFrames : List RFrame := [⟨0, 0⟩, ⟨2, 1⟩, ⟨5, 2⟩]

/-- A concrete episode "A" (out-of-order load scenario). -/
def epA : JEpisode := ⟨"A", .fin 1, []⟩

/-- A concrete episode "B" (out-of-order load scenario). -/
def epB : JEpisode := ⟨"B", .fin 1, []⟩

/-! ### The VisualState schema (lib/visualState.ts) -/

/-- Node shapes accepted by the schema (`z.enum(["sphere","box","ico","dodeca"])`). -/
inductive NodeShape where
  | sphere
  | box
  | ico
  | dodeca
  deriving DecidableEq, Repr

/-- Loop types (`z.enum(["R","B"])`). -/
inductive LoopType where
  | R
  | B
  deriving DecidableEq, Repr

/-- Flow styles (`z.enum(["line","tube"])`). -/
inductive FlowStyle where
  | line
  | tube
  deriving DecidableEq, Repr

/-- A 3-vector of JS numbers. -/
abbrev Vec3 : Type := JSNum × JSNum × JSNum

structure VisualNode where
  id : String
  shape : NodeShape
  pos : Vec3
  color : String
  intensity : JSNum
  opacity : JSNum
  scale : Option JSNum
  deriving DecidableEq, Repr

structure VisualLoop where
  id : String
  type : LoopType
  center : Vec3
  radius : JSNum
  intensity : JSNum
  flowSpeed : JSNum
  bottleneck : Option JSNum
  delay : Option JSNum
  deriving DecidableEq, Repr

structure VisualLever where
  id : String
  target : String
  pos : Vec3
  strength : JSNum
  deriving DecidableEq, Repr

structure VisualFlow where
  id : String
  from_id : String
  to_id : String
  type : FlowStyle
  speed : JSNum
  intensity : Option JSNum
  color : Option String
  deriving DecidableEq, Repr

structure VisualField where
  chaos : JSNum
  density : JSNum
  noiseAmp : JSNum
  deriving DecidableEq, Repr

structure VisualState where
  t : Option JSNum
  focus : Option String
  nodes : List VisualNode
  loops : List VisualLoop
  levers : List VisualLever
  flows : Option (List VisualFlow)
  field : Option VisualField
  deriving DecidableEq, Repr

/-- A JSON-like value: the untrusted input of `parseVisualState`.  JS
objects are association lists of distinct keys. -/
inductive JVal where
  | jnull
  | jbool (b : Bool)
  | jnum (n : JSNum)
  | jstr (s : String)
  | jarr (items : List JVal)
  | jobj (fields : List (String × JVal))

/-- Look a key up in an object. -/
def getKey (fields : List (String × JVal)) (k : String) : Option JVal :=
  match fields with
  | [] => none
  | (k2, v) :: rest => if k2 = k then some v else getKey rest k

/-- Models `z.number()`: accepts a JS number that is not NaN (zod classifies NaN
as its own parsed type, so `z.number()` rejects it as a type mismatch);
±Infinity is accepted.  The subsequent `Number(...)` transform is the
identity on numbers. -/
def pNum : JVal → Option JSNum
  | .jnum n => if n = .nan then none else some n
  | _ => none

/-- Models `z.string()`. -/
def pStr : JVal → Option String
  | .jstr s => some s
  | _ => none

/-- Models `z.string().min(1)`. -/
def pStr1 : JVal → Option String
  | .jstr s => if 1 ≤ s.length then some s else none
  | _ => none

/-- Models `vec3Schema`: `z.tuple([z.number(), z.number(), z.number()])` followed
by the componentwise `Number(...)` transform (the identity on numbers). -/
def pVec3 : JVal → Option Vec3
  | .jarr [a, b, c] => do
    let x ← pNum a
    let y ← pNum b
    let w ← pNum c
    pure (x, y, w)
  | _ => none

def pShape : JVal → Option NodeShape
  | .jstr "sphere" => some .sphere
  | .jstr "box" => some .box
  | .jstr "ico" => some .ico
  | .jstr "dodeca" => some .dodeca
  | _ => none

def pLoopType : JVal → Option LoopType
  | .jstr "R" => some .R
  | .jstr "B" => some .B
  | _ => none

def pFlowStyle : JVal → Option FlowStyle
  | .jstr "line" => some .line
  | .jstr "tube" => some .tube
  | _ => none

/-- A required object field: missing or mismatching value fails the parse. -/
def reqField (fields : List (String × JVal)) (k : String) (p : JVal → Option α) : Option α :=
  match getKey fields k with
  | some v => p v
  | none => none

/-- An `.optional()` object field: absent is fine, present values must
parse (`null` is not accepted by zod's `.optional()`). -/
def optField (fields : List (String × JVal)) (k : String) (p : JVal → Option α) :
    Option (Option α) :=
  match getKey fields k with
  | some v => (p v).map some
  | none => some none

/-- Elementwise parsing of an array's items: all must parse. -/
def pListAux (p : JVal → Option α) : List JVal → Option (List α)
  | [] => some []
  | v :: rest => do
    let a ← p v
    let as ← pListAux p rest
    pure (a :: as)

/-- Models `z.array(s)`. -/
def pList (p : JVal → Option α) : JVal → Option (List α)
  | .jarr items => pListAux p items
  | _ => none

/-- Models `nodeSchema`. -/
def pNode : JVal → Option VisualNode
  | .jobj fs => do
    let i ← reqField fs "id" pStr1
    let sh ← reqField fs "shape" pShape
    let p ← reqField fs "pos" pVec3
    let c ← reqField fs "color" pStr
    let it ← reqField fs "intensity" pNum
    let o ← reqField fs "opacity" pNum
    let sc ← optField fs "scale" pNum
    pure ⟨i, sh, p, c, it, o, sc⟩
  | _ => none

/-- Models `loopSchema`. -/
def pLoop : JVal → Option VisualLoop
  | .jobj fs => do
    let i ← reqField fs "id" pStr1
    let ty ← reqField fs "type" pLoopType
    let ce ← reqField fs "center" pVec3
    let r ← reqField fs "radius" pNum
    let it ← reqField fs "intensity" pNum
    let fsp ← reqField fs "flowSpeed" pNum
    let bo ← optField fs "bottleneck" pNum
    let de ← optField fs "delay" pNum
    pure ⟨i, ty, ce, r, it, fsp, bo, de⟩
  | _ => none

/-- Models `leverSchema`. -/
def pLever : JVal → Option VisualLever
  | .jobj fs => do
    let i ← reqField fs "id" pStr1
    let ta ← reqField fs "target" pStr1
    let p ← reqField fs "pos" pVec3
    let st ← reqField fs "strength" pNum
    pure ⟨i, ta, p, st⟩
  | _ => none

/-- Models `flowSchema`. -/
def pFlow : JVal → Option VisualFlow
  | .jobj fs => do
    let i ← reqField fs "id" pStr1
    let fr ← reqField fs "from" pStr1
    let tg ← reqField fs "to" pStr1
    let ty ← reqField fs "type" pFlowStyle
    let sp ← reqField fs "speed" pNum
    let it ← optField fs "intensity" pNum
    let c ← optField fs "color" pStr
    pure ⟨i, fr, tg, ty, sp, it, c⟩
  | _ => none

/-- Models `fieldSchema`. -/
def pField : JVal → Option VisualField
  | .jobj fs => do
    let ch ← reqField fs "chaos" pNum
    let de ← reqField fs "density" pNum
    let no ← reqField fs "noiseAmp" pNum
    pure ⟨ch, de, no⟩
  | _ => none

/-- Models `visualStateSchema.safeParse`, before normalization. -/
def pState : JVal → Option VisualState
  | .jobj fs => do
    let t ← optField fs "t" pNum
    let fo ← optField fs "focus" pStr
    let ns ← reqField fs "nodes" (pList pNode)
    let ls ← reqField fs "loops" (pList pLoop)
    let lv ← reqField fs "levers" (pList pLever)
    let fl ← optField fs "flows" (pList pFlow)
    let fi ← optField fs "field" pField
    pure ⟨t, fo, ns, ls, lv, fl, fi⟩
  | _ => none

/-- Models `clamp01(value) = clamp(value, 0, 1)` (visualState.ts). -/
def clamp01 (x : JSNum) : JSNum := jsClamp x (.fin 0) (.fin 1)

/-- Models `clampVec3(v) = [Number(v[0]) || 0, Number(v[1]) || 0, Number(v[2]) || 0]`
(visualState.ts).  Note `x || 0` replaces only NaN and 0 by 0; ±Infinity
passes through. -/
def clampVec3 (v : Vec3) : Vec3 :=
  (jsOr v.1 (.fin 0), jsOr v.2.1 (.fin 0), jsOr v.2.2 (.fin 0))

/-- Models `Math.max(0.01, Number(r) || 0.01)`: the radius floor. -/
def floorRadius (r : JSNum) : JSNum := jsMax (.fin (1 / 100)) (jsOr r (.fin (1 / 100)))

/-- Models `Math.max(0, Number(s) || 0)`: the speed floor. -/
def floorSpeed (s : JSNum) : JSNum := jsMax (.fin 0) (jsOr s (.fin 0))

/-- Models `normalizeNode` (visualState.ts). -/
def normalizeNode (n : VisualNode) : VisualNode :=
  { n with
    pos := clampVec3 n.pos
    intensity := clamp01 n.intensity
    opacity := clamp01 n.opacity
    scale := n.scale.map (fun s => jsClamp s (.fin (1 / 10)) (.fin 5)) }

/-- Models `normalizeLoop` (visualState.ts). -/
def normalizeLoop (l : VisualLoop) : VisualLoop :=
  { l with
    center := clampVec3 l.center
    radius := floorRadius l.radius
    intensity := clamp01 l.intensity
    flowSpeed := floorSpeed l.flowSpeed
    bottleneck := l.bottleneck.map clamp01
    delay := l.delay.map clamp01 }

/-- Models `normalizeLever` (visualState.ts). -/
def normalizeLever (l : VisualLever) : VisualLever :=
  { l with
    pos := clampVec3 l.pos
    strength := clamp01 l.strength }

/-- Models `normalizeFlow` (visualState.ts). -/
def normalizeFlow (f : VisualFlow) : VisualFlow :=
  { f with
    speed := floorSpeed f.speed
    intensity := f.intensity.map clamp01 }

/-- Models `normalizeField` (visualState.ts). -/
def normalizeField (f : VisualField) : VisualField :=
  ⟨clamp01 f.chaos, clamp01 f.density, clamp01 f.noiseAmp⟩

/-- The normalization applied by `parseVisualState` on structural success. -/
def normalizeState (d : VisualState) : VisualState :=
  ⟨d.t, d.focus,
   d.nodes.map normalizeNode,
   d.loops.map normalizeLoop,
   d.levers.map normalizeLever,
   d.flows.map (fun l => l.map normalizeFlow),
   d.field.map normalizeField⟩

/-- Models `parseVisualState` (visualState.ts): schema validation followed by
normalization; a structural mismatch is the only failure mode. -/
def parseVisualState (x : JVal) : Except String VisualState :=
  match pState x with
  | some d => .ok (normalizeState d)
  | none => .error "invalid visual state"

/-! ### Re-embedding a typed VisualState as a raw value

`parseVisualState` is called on `unknown`; feeding it its own output means
passing the normalized `VisualState` object back in.  `stateJ` is that
object viewed as a raw value again. -/

def shapeJ : NodeShape → JVal
  | .sphere => .jstr "sphere"
  | .box => .jstr "box"
  | .ico => .jstr "ico"
  | .dodeca => .jstr "dodeca"

def loopTypeJ : LoopType → JVal
  | .R => .jstr "R"
  | .B => .jstr "B"

def flowStyleJ : FlowStyle → JVal
  | .line => .jstr "line"
  | .tube => .jstr "tube"

def vec3J (v : Vec3) : JVal := .jarr [.jnum v.1, .jnum v.2.1, .jnum v.2.2]

/-- An optional field of the re-embedded object: omitted when `none`. -/
def optJ (k : String) (v : Option JVal) : List (String × JVal) :=
  match v with
  | some j => [(k, j)]
  | none => []

def nodeJ (n : VisualNode) : JVal :=
  .jobj ([("id", .jstr n.id), ("shape", shapeJ n.shape), ("pos", vec3J n.pos),
          ("color", .jstr n.color), ("intensity", .jnum n.intensity),
          ("opacity", .jnum n.opacity)] ++ optJ "scale" (n.scale.map JVal.jnum))

def loopJ (l : VisualLoop) : JVal :=
  .jobj ([("id", .jstr l.id), ("type", loopTypeJ l.type), ("center", vec3J l.center),
          ("radius", .jnum l.radius), ("intensity", .jnum l.intensity),
          ("flowSpeed", .jnum l.flowSpeed)]
         ++ optJ "bottleneck" (l.bottleneck.map JVal.jnum)
         ++ optJ "delay" (l.delay.map JVal.jnum))

def leverJ (l : VisualLever) : JVal :=
  .jobj [("id", .jstr l.id), ("target", .jstr l.target), ("pos", vec3J l.pos),
         ("strength", .jnum l.strength)]

def flowJ (f : VisualFlow) : JVal :=
  .jobj ([("id", .jstr f.id), ("from", .jstr f.from_id), ("to", .jstr f.to_id),
          ("type", flowStyleJ f.type), ("speed", .jnum f.speed)]
         ++ optJ "intensity" (f.intensity.map JVal.jnum)
         ++ optJ "color" (f.color.map JVal.jstr))

def fieldJ (f : VisualField) : JVal :=
  .jobj [("chaos", .jnum f.chaos), ("density", .jnum f.density),
         ("noiseAmp", .jnum f.noiseAmp)]

def stateJ (d : VisualState) : JVal :=
  .jobj (optJ "t" (d.t.map JVal.jnum)
         ++ optJ "focus" (d.focus.map JVal.jstr)
         ++ [("nodes", .jarr (d.nodes.map nodeJ)), ("loops", .jarr (d.loops.map loopJ)),
             ("levers", .jarr (d.levers.map leverJ))]
         ++ optJ "flows" ((d.flows.map (fun l => l.map flowJ)).map JVal.jarr)
         ++ optJ "field" (d.field.map fieldJ))

/-! ### Structural well-shapedness

A purely structural description of the payloads `visualStateSchema`
accepts: key presence, value categories, arities, enum membership, and
zod's NaN-as-type-mismatch rule.  No magnitude comparison appears below. -/

def wsNum : JVal → Bool
  | .jnum n => !(n == .nan)
  | _ => false

def wsStr : JVal → Bool
  | .jstr _ => true
  | _ => false

def wsStr1 : JVal → Bool
  | .jstr s => 1 ≤ s.length
  | _ => false

def wsVec3 : JVal → Bool
  | .jarr [a, b, c] => wsNum a && wsNum b && wsNum c
  | _ => false

def wsShape : JVal → Bool
  | .jstr s => s == "sphere" || s == "box" || s == "ico" || s == "dodeca"
  | _ => false

def wsLoopType : JVal → Bool
  | .jstr s => s == "R" || s == "B"
  | _ => false

def wsFlowStyle : JVal → Bool
  | .jstr s => s == "line" || s == "tube"
  | _ => false

def wsReq (fields : List (String × JVal)) (k : String) (w : JVal → Bool) : Bool :=
  match getKey fields k with
  | some v => w v
  | none => false

def wsOpt (fields : List (String × JVal)) (k : String) (w : JVal → Bool) : Bool :=
  match getKey fields k with
  | some v => w v
  | none => true

def wsList (w : JVal → Bool) : JVal → Bool
  | .jarr items => items.all w
  | _ => false

def wsNode : JVal → Bool
  | .jobj fs =>
    wsReq fs "id" wsStr1 && wsReq fs "shape" wsShape && wsReq fs "pos" wsVec3 &&
    wsReq fs "color" wsStr && wsReq fs "intensity" wsNum && wsReq fs "opacity" wsNum &&
    wsOpt fs "scale" wsNum
  | _ => false

def wsLoop : JVal → Bool
  | .jobj fs =>
    wsReq fs "id" wsStr1 && wsReq fs "type" wsLoopType && wsReq fs "center" wsVec3 &&
    wsReq fs "radius" wsNum && wsReq fs "intensity" wsNum && wsReq fs "flowSpeed" wsNum &&
    wsOpt fs "bottleneck" wsNum && wsOpt fs "delay" wsNum
  | _ => false

def wsLever : JVal → Bool
  | .jobj fs =>
    wsReq fs "id" wsStr1 && wsReq fs "target" wsStr1 && wsReq fs "pos" wsVec3 &&
    wsReq fs "strength" wsNum
  | _ => false

def wsFlow : JVal → Bool
  | .jobj fs =>
    wsReq fs "id" wsStr1 && wsReq fs "from" wsStr1 && wsReq fs "to" wsStr1 &&
    wsReq fs "type" wsFlowStyle && wsReq fs "speed" wsNum &&
    wsOpt fs "intensity" wsNum && wsOpt fs "color" wsStr
  | _ => false

def wsField : JVal → Bool
  | .jobj fs => wsReq fs "chaos" wsNum && wsReq fs "density" wsNum && wsReq fs "noiseAmp" wsNum
  | _ => false

/-- A payload is structurally well-shaped for `visualStateSchema`. -/
def wellShaped : JVal → Bool
  | .jobj fs =>
    wsOpt fs "t" wsNum && wsOpt fs "focus" wsStr &&
    wsReq fs "nodes" (wsList wsNode) && wsReq fs "loops" (wsList wsLoop) &&
    wsReq fs "levers" (wsList wsLever) &&
    wsOpt fs "flows" (wsList wsFlow) && wsOpt fs "field" (wsField)
  | _ => false

/-- No NaN among a vector's coordinates (what survives `z.number()`). -/
def vecNoNaN (v : Vec3) : Prop := v.1 ≠ .nan ∧ v.2.1 ≠ .nan ∧ v.2.2 ≠ .nan

/-! ### Well-formedness of parsed values

Exactly the facts the schema guarantees about its typed output: nonempty
ids and NaN-free numbers.  Used to show the normalized output re-parses. -/

def wfNode (n : VisualNode) : Prop :=
  1 ≤ n.id.length ∧ vecNoNaN n.pos ∧ n.intensity ≠ .nan ∧ n.opacity ≠ .nan ∧
  (∀ s, n.scale = some s → s ≠ .nan)

def wfLoop (l : VisualLoop) : Prop :=
  1 ≤ l.id.length ∧ vecNoNaN l.center ∧ l.radius ≠ .nan ∧ l.intensity ≠ .nan ∧
  l.flowSpeed ≠ .nan ∧ (∀ s, l.bottleneck = some s → s ≠ .nan) ∧
  (∀ s, l.delay = some s → s ≠ .nan)

def wfLever (l : VisualLever) : Prop :=
  1 ≤ l.id.length ∧ 1 ≤ l.target.length ∧ vecNoNaN l.pos ∧ l.strength ≠ .nan

def wfFlow (f : VisualFlow) : Prop :=
  1 ≤ f.id.length ∧ 1 ≤ f.from_id.length ∧ 1 ≤ f.to_id.length ∧ f.speed ≠ .nan ∧
  (∀ s, f.intensity = some s → s ≠ .nan)

def wfField (f : VisualField) : Prop :=
  f.chaos ≠ .nan ∧ f.density ≠ .nan ∧ f.noiseAmp ≠ .nan

def wfState (d : VisualState) : Prop :=
  (∀ x, d.t = some x → x ≠ .nan) ∧
  (∀ n ∈ d.nodes, wfNode n) ∧ (∀ l ∈ d.loops, wfLoop l) ∧ (∀ l ∈ d.levers, wfLever l) ∧
  (∀ fl, d.flows = some fl → ∀ f ∈ fl, wfFlow f) ∧
  (∀ fi, d.field = some fi → wfField fi)

/-- The normalized value `parseVisualState` produces for `infPosPayload`
below: the infinite coordinate survives normalization. -/
def infPosParsed : VisualState :=
  ⟨none, none,
   [⟨"n1", .sphere, (.inf, .fin 0, .fin 0), "#fff", .fin 1, .fin 1, none⟩],
   [], [], none, none⟩

/-! ### Concrete payloads used as counterexamples and witnesses -/

/-- A structurally valid payload whose single node has position
`[Infinity, 0, 0]`. -/
def infPosPayload : JVal :=
  .jobj [("nodes", .jarr [.jobj [("id", .jstr "n1"), ("shape", .jstr "sphere"),
            ("pos", .jarr [.jnum .inf, .jnum (.fin 0), .jnum (.fin 0)]),
            ("color", .jstr "#fff"), ("intensity", .jnum (.fin 2)),
            ("opacity", .jnum (.fin 1))]]),
         ("loops", .jarr []), ("levers", .jarr [])]

/-- The same payload with position `[NaN, 0, 0]` instead. -/
def nanPosPayload : JVal :=
  .jobj [("nodes", .jarr [.jobj [("id", .jstr "n1"), ("shape", .jstr "sphere"),
            ("pos", .jarr [.jnum .nan, .jnum (.fin 0), .jnum (.fin 0)]),
            ("color", .jstr "#fff"), ("intensity", .jnum (.fin 2)),
            ("opacity", .jnum (.fin 1))]]),
         ("loops", .jarr []), ("levers", .jarr [])]

/-! ### Characterizing `findFrameIndex` -/

/-- The scan loop of `findFrameIndex` computes, in terms of `takeWhile`:
it returns `best` when the first frame is already beyond `t`, and otherwise
the index of the last frame of the accepted prefix. -/
theorem findLoop_eq (t : ℚ) (l : List RFrame) (i best : Nat) :
    findLoop t l i best =
      if (l.takeWhile (fun f => decide (f.t ≤ t))).length = 0 then best
      else i + (l.takeWhile (fun f => decide (f.t ≤ t))).length - 1 := by
  induction l generalizing i best with
  | nil => simp [findLoop]
  | cons f rest ih =>
    by_cases h : f.t ≤ t
    · have h1 : findLoop t (f :: rest) i best = findLoop t rest (i + 1) i := by
        simp [findLoop, h]
      have h2 : List.takeWhile (fun g => decide (g.t ≤ t)) (f :: rest)
          = f :: List.takeWhile (fun g => decide (g.t ≤ t)) rest := by
        simp [h]
      rw [h1, ih, h2]
      simp only [List.length_cons]
      rw [if_neg (Nat.succ_ne_zero _)]
      split <;> omega
    · have h1 : findLoop t (f :: rest) i best = best := by simp [findLoop, h]
      have h2 : List.takeWhile (fun g => decide (g.t ≤ t)) (f :: rest) = [] := by
        simp [h]
      rw [h1, h2]
      simp

/-- Characterization of `findFrameIndex` in closed form: `0` when no frame's time is `≤ t`
(or the list is empty), otherwise (length of the `≤ t` prefix) − 1. -/
theorem findFrameIndex_eq (frames : List RFrame) (t : ℚ) :
    findFrameIndex frames t =
      if (frames.takeWhile (fun f => decide (f.t ≤ t))).length = 0 then 0
      else (frames.takeWhile (fun f => decide (f.t ≤ t))).length - 1 := by
  unfold findFrameIndex
  by_cases h : frames.length = 0
  · rw [if_pos h]
    rw [List.length_eq_zero] at h
    subst h
    simp
  · rw [if_neg h, findLoop_eq]
    split <;> omega

/-- Length of a `takeWhile` prefix, determined by a pointwise description:
if the first `n` elements satisfy `p` and the element at `n` (when it
exists) does not, the prefix has length exactly `n`. -/
theorem takeWhile_length_eq {α : Type} (p : α → Bool) (l : List α) (n : Nat)
    (hn : n ≤ l.length)
    (hall : ∀ m (hm : m < n), p (l.get ⟨m, lt_of_lt_of_le hm hn⟩) = true)
    (hstop : ∀ h : n < l.length, p (l.get ⟨n, h⟩) = false) :
    (l.takeWhile p).length = n := by
  induction l generalizing n with
  | nil =>
    simp only [List.length_nil, Nat.le_zero] at hn
    simp [hn]
  | cons x xs ih =>
    match n with
    | 0 =>
      have hx : p x = false := hstop (by simp)
      have h2 : (x :: xs).takeWhile p = [] := by simp [List.takeWhile_cons, hx]
      simp [h2]
    | Nat.succ m =>
      have hx : p x = true := hall 0 (Nat.succ_pos m)
      have h2 : (x :: xs).takeWhile p = x :: xs.takeWhile p := by
        simp [List.takeWhile_cons, hx]
      rw [h2, List.length_cons]
      have hrec := ih m (by simpa using hn)
        (fun k hk => hall (k + 1) (by omega))
        (fun h => hstop (by simpa using h))
      omega

/-- C4: on a frame list sorted ascending by `t`, `findFrameIndex` returns
the index of the last frame whose timestamp is `≤` the query time: `0` on
the empty list, `0` when `t` is before the first frame's time, the last
index when `t` is at or after the last frame's time, and `i` (never
`i + 1`) when `t` lies strictly between the times of frames `i` and
`i + 1`. -/
theorem c4_findFrameIndex_floor (frames : List RFrame) (t : ℚ)
    (hs : List.Pairwise (fun a b => a.t ≤ b.t) frames) :
    (frames = [] → findFrameIndex frames t = 0) ∧
    (∀ h0 : 0 < frames.length, t < (frames.get ⟨0, h0⟩).t → findFrameIndex frames t = 0) ∧
    (∀ h0 : 0 < frames.length,
      (frames.get ⟨frames.length - 1, Nat.sub_lt h0 Nat.one_pos⟩).t ≤ t →
      findFrameIndex frames t = frames.length - 1) ∧
    (∀ i (hi : i + 1 < frames.length),
      (frames.get ⟨i, Nat.lt_of_succ_lt hi⟩).t < t → t < (frames.get ⟨i + 1, hi⟩).t →
      findFrameIndex frames t = i) := by
  have hget := List.pairwise_iff_get.mp hs
  refine ⟨?_, ?_, ?_, ?_⟩
  · intro h
    subst h
    rfl
  · intro h0 hlt
    rw [findFrameIndex_eq]
    have hlen : (frames.takeWhile (fun f => decide (f.t ≤ t))).length = 0 := by
      apply takeWhile_length_eq _ _ 0 (Nat.zero_le _)
      · intro m hm
        exact absurd hm (Nat.not_lt_zero m)
      · intro h
        simp only [decide_eq_false_iff_not]
        exact not_le.mpr hlt
    simp [hlen]
  · intro h0 hle
    rw [findFrameIndex_eq]
    have hlen : (frames.takeWhile (fun f => decide (f.t ≤ t))).length = frames.length := by
      apply takeWhile_length_eq _ _ frames.length (le_refl _)
      · intro m hm
        simp only [decide_eq_true_eq]
        rcases Nat.lt_or_ge m (frames.length - 1) with hlt2 | hge
        · exact le_trans (hget ⟨m, hm⟩ ⟨frames.length - 1, Nat.sub_lt h0 Nat.one_pos⟩ hlt2) hle
        · have hm1 : m = frames.length - 1 := by omega
          subst hm1
          exact hle
      · intro h
        exact absurd h (lt_irrefl _)
    rw [hlen, if_neg (by omega)]
  · intro i hi hlow hhigh
    rw [findFrameIndex_eq]
    have hlen : (frames.takeWhile (fun f => decide (f.t ≤ t))).length = i + 1 := by
      apply takeWhile_length_eq _ _ (i + 1) (by omega)
      · intro m hm
        simp only [decide_eq_true_eq]
        rcases Nat.lt_or_ge m i with hlt2 | hge
        · exact le_trans (hget ⟨m, by omega⟩ ⟨i, Nat.lt_of_succ_lt hi⟩ hlt2) (le_of_lt hlow)
        · have hm1 : m = i := by omega
          subst hm1
          exact le_of_lt hlow
      · intro h
        simp only [decide_eq_false_iff_not]
        exact not_le.mpr hhigh
    rw [hlen, if_neg (Nat.succ_ne_zero i)]
    omega

/-- Witness for C4: the concrete frames are sorted, and a query strictly
between frames 1 and 2 lands on index 1. -/
theorem c4_witness :
    List.Pairwise (fun a b : RFrame => a.t ≤ b.t) exFrames ∧ findFrameIndex exFrames 3 = 1 :=
  ⟨by decide,
   (c4_findFrameIndex_floor exFrames 3 (by decide)).2.2.2 1 (by decide) (by decide) (by decide)⟩

/-! ### Sorted-frame derivation (C7, and frame ordering facts for C1) -/

/-- The comparator `(a, b) => a.t - b.t` sorts ascending by `t`; as a Bool
relation it is transitive. -/
theorem frameLe_trans (a b c : RFrame)
    (h1 : decide (a.t ≤ b.t) = true) (h2 : decide (b.t ≤ c.t) = true) :
    decide (a.t ≤ c.t) = true := by
  simp only [decide_eq_true_eq] at h1 h2 ⊢
  exact le_trans h1 h2

/-- The comparator is total. -/
theorem frameLe_total (a b : RFrame) :
    (decide (a.t ≤ b.t) || decide (b.t ≤ a.t)) = true := by
  rcases le_total a.t b.t with h | h <;> simp [h]

/-- The output of `sortedFrames` is non-decreasing in `t`. -/
theorem sortedFrames_pairwise (frames : List RFrame) :
    List.Pairwise (fun a b => a.t ≤ b.t) (sortedFrames frames) := by
  have h := List.sorted_mergeSort frameLe_trans frameLe_total frames
  exact h.imp (fun hab => of_decide_eq_true hab)

/-- Stability of `sortedFrames`: restricting the output to any one
timestamp yields exactly the input's subsequence at that timestamp. -/
theorem sortedFrames_filter_stable (frames : List RFrame) (v : ℚ) :
    (sortedFrames frames).filter (fun f => decide (f.t = v))
      = frames.filter (fun f => decide (f.t = v)) := by
    have hsub : List.Sublist (frames.filter (fun f => decide (f.t = v))) frames :=
      List.filter_sublist frames
    have hpw : (frames.filter (fun f => decide (f.t = v))).Pairwise
        (fun a b => decide (a.t ≤ b.t) = true) := by
      apply List.pairwise_of_forall_mem_list
      intro a ha b hb
      have ha2 : a.t = v := by
        have := (List.mem_filter.mp ha).2
        simpa using this
      have hb2 : b.t = v := by
        have := (List.mem_filter.mp hb).2
        simpa using this
      simp [ha2, hb2]
    have h1 : List.Sublist (frames.filter (fun f => decide (f.t = v))) (sortedFrames frames) :=
      List.sublist_mergeSort frameLe_trans frameLe_total hpw hsub
    have h2 : List.Sublist (frames.filter (fun f => decide (f.t = v)))
        ((sortedFrames frames).filter (fun f => decide (f.t = v))) := by
      have h3 := h1.filter (fun f => decide (f.t = v))
      rwa [List.filter_filter, show
        (fun f : RFrame => decide (f.t = v) && decide (f.t = v)) = fun f => decide (f.t = v)
        from by funext f; rw [Bool.and_self]] at h3
    have hlen : ((sortedFrames frames).filter (fun f => decide (f.t = v))).length
        = (frames.filter (fun f => decide (f.t = v))).length :=
      ((List.mergeSort_perm frames _).filter _).length_eq
    exact (h2.eq_of_length hlen.symm).symm

/-- C7: `sortedFrames` yields frames non-decreasing in `t`, and frames of
equal `t` appear in their original relative input order (stability,
expressed as: restricting the output to any one timestamp gives exactly
the input's subsequence at that timestamp). -/
theorem c7_sortedFrames_sorted_stable (frames : List RFrame) :
    List.Pairwise (fun a b => a.t ≤ b.t) (sortedFrames frames) ∧
    ∀ v : ℚ, (sortedFrames frames).filter (fun f => decide (f.t = v))
      = frames.filter (fun f => decide (f.t = v)) :=
  ⟨sortedFrames_pairwise frames, sortedFrames_filter_stable frames⟩

/-! ### Duration reconciliation (C1) -/

/-- Every member of a list is bounded by `foldr max 0`. -/
theorem le_foldr_max (l : List ℚ) (a : ℚ) (h : a ∈ l) : a ≤ l.foldr max 0 := by
  induction l with
  | nil => cases h
  | cons x xs ih =>
    rcases List.mem_cons.mp h with h1 | h2
    · subst h1
      exact le_max_left _ _
    · exact le_trans (ih h2) (le_max_right _ _)

/-- The value `foldr max 0` is nonnegative. -/
theorem foldr_max_nonneg (l : List ℚ) : 0 ≤ l.foldr max 0 := by
  induction l with
  | nil => exact le_refl 0
  | cons x xs ih => exact le_trans ih (le_max_right _ _)

/-- The value `foldr max 0` is below any nonnegative upper bound of the list. -/
theorem foldr_max_le (l : List ℚ) (b : ℚ) (h0 : 0 ≤ b) (h : ∀ x ∈ l, x ≤ b) :
    l.foldr max 0 ≤ b := by
  induction l with
  | nil => simpa using h0
  | cons x xs ih =>
    simp only [List.foldr_cons]
    exact max_le (h x (by simp)) (ih (fun y hy => h y (List.mem_cons_of_mem _ hy)))

/-- In a list sorted ascending by `t`, every element's time is at most the
last element's time. -/
theorem pairwise_le_getLast (l : List RFrame) (hs : List.Pairwise (fun a b => a.t ≤ b.t) l)
    (hne : l ≠ []) (f : RFrame) (hf : f ∈ l) : f.t ≤ (l.getLast hne).t := by
  have hget := List.pairwise_iff_get.mp hs
  rcases List.mem_iff_get.mp hf with ⟨i, rfl⟩
  rw [List.getLast_eq_get]
  rcases Nat.lt_or_ge i.val (l.length - 1) with h1 | h2
  · exact hget i ⟨l.length - 1, by omega⟩ h1
  · have hi : i = (⟨l.length - 1, by have := i.isLt; omega⟩ : Fin l.length) := by
      apply Fin.ext
      have := i.isLt
      simp only []
      omega
    rw [hi]

/-- The `lastT`-based value the reconciliation computes, `max`ed with 0,
is exactly the maximum frame timestamp (with 0 for an empty list). -/
theorem sorted_getLast_max (fs : List RFrame) :
    max 0 ((((sortedFrames fs).getLast?).map RFrame.t).getD 0) = maxT fs := by
  unfold maxT
  by_cases hfs : fs = []
  · subst hfs
    simp [sortedFrames]
  · have hne : sortedFrames fs ≠ [] := by
      intro h
      apply hfs
      have hlen := congrArg List.length h
      simp only [sortedFrames, List.length_mergeSort, List.length_nil] at hlen
      exact List.length_eq_zero.mp hlen
    rw [List.getLast?_eq_getLast _ hne]
    simp only [Option.map_some', Option.getD_some]
    apply le_antisymm
    · apply max_le (foldr_max_nonneg _)
      apply le_foldr_max
      have hmem : (sortedFrames fs).getLast hne ∈ sortedFrames fs := List.getLast_mem hne
      have hmem2 : (sortedFrames fs).getLast hne ∈ fs := by
        have h2 : (sortedFrames fs).getLast hne
            ∈ fs.mergeSort (fun a b => decide (a.t ≤ b.t)) := hmem
        exact List.mem_mergeSort.mp h2
      exact List.mem_map.mpr ⟨_, hmem2, rfl⟩
    · apply foldr_max_le _ _ (le_max_left _ _)
      intro x hx
      rcases List.mem_map.mp hx with ⟨f, hf, rfl⟩
      have hmem : f ∈ sortedFrames fs := by
        simp only [sortedFrames, List.mem_mergeSort]
        exact hf
      exact le_trans (pairwise_le_getLast _ (sortedFrames_pairwise fs) hne f hmem)
        (le_max_right _ _)

/-- A finite positive stored duration is kept as-is by reconciliation. -/
theorem reconcile_duration_valid (e : JEpisode)
    (h : (e.duration.isFinite && e.duration.gt0) = true) :
    (reconcileEpisode e).duration = e.duration := by
  rcases e with ⟨eid, dur, efr⟩
  cases dur with
  | nan => simp [JSNum.isFinite] at h
  | inf => simp [JSNum.isFinite] at h
  | ninf => simp [JSNum.isFinite] at h
  | fin q =>
    have hq : 0 < q := by
      simpa [JSNum.isFinite, JSNum.gt0] using h
    simp [reconcileEpisode, JSNum.gt0, JSNum.isFinite, hq]

/-- A missing/non-finite/non-positive stored duration is reconciled to the
maximum frame timestamp capped below at 0. -/
theorem reconcile_duration_invalid (e : JEpisode)
    (h : (e.duration.isFinite && e.duration.gt0) = false) :
    (reconcileEpisode e).duration = .fin (maxT e.frames) := by
  rcases e with ⟨eid, dur, efr⟩
  rw [← sorted_getLast_max efr]
  by_cases h2 : (0:ℚ) < (((sortedFrames efr).getLast?).map RFrame.t).getD 0
  · have hm := max_eq_right (le_of_lt h2)
    cases dur with
    | nan => simp [reconcileEpisode, JSNum.isFinite, JSNum.gt0, h2, hm]
    | inf => simp [reconcileEpisode, JSNum.isFinite, JSNum.gt0, h2, hm]
    | ninf => simp [reconcileEpisode, JSNum.isFinite, JSNum.gt0, h2, hm]
    | fin q =>
      have hq : ¬ (0 < q) := by
        simpa [JSNum.isFinite, JSNum.gt0] using h
      simp [reconcileEpisode, JSNum.isFinite, JSNum.gt0, hq, h2, hm]
  · have hm := max_eq_left (not_lt.mp h2)
    cases dur with
    | nan => simp [reconcileEpisode, JSNum.isFinite, JSNum.gt0, h2, hm]
    | inf => simp [reconcileEpisode, JSNum.isFinite, JSNum.gt0, h2, hm]
    | ninf => simp [reconcileEpisode, JSNum.isFinite, JSNum.gt0, h2, hm]
    | fin q =>
      have hq : ¬ (0 < q) := by
        simpa [JSNum.isFinite, JSNum.gt0] using h
      simp [reconcileEpisode, JSNum.isFinite, JSNum.gt0, hq, h2, hm]

/-- C1 (amended): after a load, the stored episode's frames are sorted
ascending by `t`; a stored duration that is finite and positive is kept
as-is — even when it is smaller than the maximum frame timestamp, so
`duration ≥ max t` is NOT enforced in that case — and only a missing
(non-finite) or non-positive stored duration is reconciled, to the
maximum frame timestamp capped below at 0 (hence to 0 for an episode with
no frames). -/
theorem c1_reconcile_amended (e : JEpisode) :
    ((reconcileEpisode e).frames = sortedFrames e.frames ∧
      List.Pairwise (fun a b => a.t ≤ b.t) (reconcileEpisode e).frames) ∧
    ((e.duration.isFinite && e.duration.gt0) = true →
      (reconcileEpisode e).duration = e.duration) ∧
    ((e.duration.isFinite && e.duration.gt0) = false →
      (reconcileEpisode e).duration = .fin (maxT e.frames)) ∧
    (e.frames = [] → (e.duration.isFinite && e.duration.gt0) = false →
      (reconcileEpisode e).duration = .fin 0) := by
  refine ⟨⟨rfl, sortedFrames_pairwise e.frames⟩,
    reconcile_duration_valid e, reconcile_duration_invalid e, ?_⟩
  intro hf h
  rw [reconcile_duration_invalid e h, hf]
  rfl

/-- Witness for C1: an episode with non-finite stored duration and one
frame at t = 13 reconciles its duration to that maximum timestamp. -/
theorem c1_witness :
    (JSNum.inf.isFinite && JSNum.inf.gt0) = false ∧
    (reconcileEpisode ⟨"w1", .inf, [⟨13, 3⟩]⟩).duration = .fin (maxT [⟨13, 3⟩]) :=
  ⟨by decide, (c1_reconcile_amended ⟨"w1", .inf, [⟨13, 3⟩]⟩).2.2.1 (by decide)⟩

/-- Counterexample to C1 as stated: an episode whose stored duration is
finite and positive (`1`) but smaller than the maximum frame timestamp
(`13`) keeps duration `1` after reconciliation, violating the invariant
`duration ≥ max t`. -/
theorem c1_counterexample :
    (reconcileEpisode ⟨"e1", .fin 1, [⟨13, 0⟩]⟩).duration = .fin 1 ∧
    maxT (reconcileEpisode ⟨"e1", .fin 1, [⟨13, 0⟩]⟩).frames = 13 ∧
    ¬ ((13 : ℚ) ≤ 1) := by
  refine ⟨by decide, ?_, by decide⟩
  show maxT (sortedFrames [⟨13, 0⟩]) = 13
  rw [show sortedFrames [⟨13, 0⟩] = [⟨13, 0⟩] from by simp [sortedFrames]]
  decide

/-! ### Playback clock advancement (C5, C8) -/

/-- A paused clock is unchanged by a tick (the effect is not scheduled). -/
theorem tick_paused (duration speed : ℚ) (frames : List RFrame) (s : ClockState) (delta : ℚ)
    (h : s.isPlaying = false) : tick duration speed frames s delta = s := by
  simp [tick, h]

/-- A paused clock is unchanged by any sequence of ticks. -/
theorem runTicks_paused (duration speed : ℚ) (frames : List RFrame) (deltas : List ℚ)
    (s : ClockState) (h : s.isPlaying = false) :
    runTicks duration speed frames s deltas = s := by
  induction deltas with
  | nil => rfl
  | cons d rest ih =>
    show runTicks duration speed frames (tick duration speed frames s d) rest = s
    rw [tick_paused duration speed frames s d h]
    exact ih

/-- Advancement at speed 1 from a playing state: when the nonnegative
deltas sum exactly to the remaining time, playback ends paused exactly at
`duration`. -/
theorem runTicks_reaches (duration : ℚ) (frames : List RFrame) :
    ∀ (deltas : List ℚ) (s : ClockState),
      s.isPlaying = true → 0 ≤ s.currentTime → s.currentTime < duration →
      (∀ d ∈ deltas, 0 ≤ d) → s.currentTime + deltas.sum = duration →
      (runTicks duration 1 frames s deltas).isPlaying = false ∧
      (runTicks duration 1 frames s deltas).currentTime = duration := by
  intro deltas
  induction deltas with
  | nil =>
    intro s hp h0 hlt hd hsum
    simp only [List.sum_nil, add_zero] at hsum
    exact absurd hsum (ne_of_lt hlt)
  | cons d rest ih =>
    intro s hp h0 hlt hd hsum
    have hd0 : 0 ≤ d := hd d (by simp)
    have hrest0 : 0 ≤ rest.sum := List.sum_nonneg (fun x hx => hd x (by simp [hx]))
    have hsum2 : s.currentTime + d + rest.sum = duration := by
      rw [List.sum_cons] at hsum
      linarith
    have hle : s.currentTime + d ≤ duration := by linarith
    have hge : 0 ≤ s.currentTime + d := by linarith
    have hclamp : clampQ (s.currentTime + d) 0 duration = s.currentTime + d := by
      unfold clampQ
      rw [max_eq_right hge, min_eq_right hle]
    have hstep : runTicks duration 1 frames s (d :: rest)
        = runTicks duration 1 frames (tick duration 1 frames s d) rest := rfl
    have htick : tick duration 1 frames s d =
        { isPlaying := if s.currentTime + d ≥ duration then false else true,
          currentTime := s.currentTime + d,
          currentIndex := findFrameIndex frames (s.currentTime + d) } := by
      simp [tick, hp, hclamp]
    rw [hstep, htick]
    by_cases hend : s.currentTime + d ≥ duration
    · have heq : s.currentTime + d = duration := le_antisymm hle hend
      rw [if_pos hend]
      rw [runTicks_paused duration 1 frames rest _ rfl]
      exact ⟨rfl, heq⟩
    · rw [if_neg hend]
      exact ih _ rfl hge (lt_of_not_ge hend)
        (fun x hx => hd x (List.mem_cons_of_mem _ hx)) (by simpa using hsum2)

/-- C5: while the clock is playing, each advancement tick keeps
`currentTime` within `[0, duration]` (no tick overshoots); a tick that
lands exactly on `duration` transitions the clock to paused; and starting
paused at t = 0, `play()` followed by nonnegative tick deltas summing to
exactly `duration` ends paused with `currentTime = duration`. -/
theorem c5_clock_no_overshoot_completes :
    (∀ (duration speed delta : ℚ) (frames : List RFrame) (s : ClockState),
      0 ≤ duration → s.isPlaying = true →
      0 ≤ (tick duration speed frames s delta).currentTime ∧
      (tick duration speed frames s delta).currentTime ≤ duration) ∧
    (∀ (duration speed delta : ℚ) (frames : List RFrame) (s : ClockState),
      s.isPlaying = true →
      (tick duration speed frames s delta).currentTime = duration →
      (tick duration speed frames s delta).isPlaying = false) ∧
    (∀ (duration : ℚ) (frames : List RFrame) (deltas : List ℚ),
      0 < duration → (∀ d ∈ deltas, 0 ≤ d) → deltas.sum = duration →
      (runTicks duration 1 frames (play ⟨false, 0, 0⟩) deltas).isPlaying = false ∧
      (runTicks duration 1 frames (play ⟨false, 0, 0⟩) deltas).currentTime = duration) := by
  refine ⟨?_, ?_, ?_⟩
  · intro duration speed delta frames s hdur hp
    simp only [tick, hp, if_true]
    constructor
    · exact le_min hdur (le_max_left 0 _)
    · exact min_le_left _ _
  · intro duration speed delta frames s hp heq
    simp only [tick, hp, if_true] at heq ⊢
    rw [heq]
    simp
  · intro duration frames deltas hdur hd hsum
    exact runTicks_reaches duration frames deltas (play ⟨false, 0, 0⟩) rfl (le_refl 0) hdur hd
      (by simpa [play] using hsum)

/-- Witness for C5: duration 5, deltas 2 and 3 — playback ends paused at
exactly t = 5. -/
theorem c5_witness :
    (0:ℚ) < 5 ∧ List.sum [(2:ℚ), 3] = 5 ∧
    (runTicks 5 1 exFrames (play ⟨false, 0, 0⟩) [2, 3]).isPlaying = false ∧
    (runTicks 5 1 exFrames (play ⟨false, 0, 0⟩) [2, 3]).currentTime = 5 := by
  refine ⟨by decide, by norm_num, ?_, ?_⟩
  · exact (c5_clock_no_overshoot_completes.2.2 5 exFrames [2, 3] (by decide)
      (by intro d hd; fin_cases hd <;> decide) (by norm_num)).1
  · exact (c5_clock_no_overshoot_completes.2.2 5 exFrames [2, 3] (by decide)
      (by intro d hd; fin_cases hd <;> decide) (by norm_num)).2

/-- C8 (amended): `play()` unconditionally transitions the clock to
playing — it consults neither the playing flag nor the duration.  It is a
state no-op when already playing, but a clock with `duration ≤ 0` DOES
enter the playing state; the guard the spec describes does not exist.
What holds instead is that the first advancement tick after such a `play`
immediately pauses again, with `currentTime` clamped to `duration`. -/
theorem c8_play_amended :
    (∀ s : ClockState, play s = { s with isPlaying := true }) ∧
    (∀ s : ClockState, s.isPlaying = true → play s = s) ∧
    (∀ (duration speed delta : ℚ) (frames : List RFrame) (s : ClockState),
      duration ≤ 0 →
      (tick duration speed frames (play s) delta).isPlaying = false ∧
      (tick duration speed frames (play s) delta).currentTime = duration) := by
  refine ⟨fun s => rfl, ?_, ?_⟩
  · intro s hp
    rcases s with ⟨p, tm, ix⟩
    simp only at hp
    rw [hp]
    rfl
  · intro duration speed delta frames s hdur
    have hnext : clampQ (s.currentTime + delta * speed) 0 duration = duration := by
      unfold clampQ
      exact min_eq_left (le_trans hdur (le_max_left 0 _))
    have hplay : (play s).isPlaying = true := rfl
    have hplayt : (play s).currentTime = s.currentTime := rfl
    simp only [tick, hplay, if_true, hplayt, hnext]
    simp

/-- Witness for C8 (amended): with duration 0, a tick right after `play`
pauses again at `currentTime = 0`. -/
theorem c8_witness :
    ((0:ℚ) ≤ 0) ∧
    (tick 0 1 exFrames (play ⟨false, 1, 0⟩) 1).isPlaying = false ∧
    (tick 0 1 exFrames (play ⟨false, 1, 0⟩) 1).currentTime = 0 :=
  ⟨le_refl 0,
   (c8_play_amended.2.2 0 1 1 exFrames ⟨false, 1, 0⟩ (le_refl 0)).1,
   (c8_play_amended.2.2 0 1 1 exFrames ⟨false, 1, 0⟩ (le_refl 0)).2⟩

/-- Counterexample to C8 as stated: on a paused clock with duration 0
(`duration ≤ 0`), `play()` is not a no-op — the clock enters the playing
state. -/
theorem c8_counterexample :
    ((0:ℚ) ≤ 0) ∧ (play ⟨false, 0, 0⟩).isPlaying = true ∧
    play ⟨false, 0, 0⟩ ≠ (⟨false, 0, 0⟩ : ClockState) := by
  refine ⟨le_refl 0, rfl, ?_⟩
  intro h
  have := congrArg ClockState.isPlaying h
  simp [play] at this

/-! ### Out-of-order load resolution (C2) -/

/-- C2 is violated by the code: `useReplayEpisode.load` carries no request
identity, generation counter, or abort signal, so a response from an
earlier-issued load that arrives after a later load's response still calls
`setEpisode` and overwrites it.  In the trace "issue A, issue B, B's
response arrives, then A's stale response arrives", the session's final
episode is A's — the claim requires B's. -/
theorem c2_stale_response_wins :
    (runSession [.issue "A", .issue "B", .resolveOk epB, .resolveOk epA]
      ⟨false, none, none⟩).episode = some (reconcileEpisode epA) ∧
    (reconcileEpisode epA).episode_id = "A" ∧
    (reconcileEpisode epB).episode_id = "B" ∧
    reconcileEpisode epA ≠ reconcileEpisode epB := by
  refine ⟨rfl, rfl, rfl, ?_⟩
  intro h
  have h2 := congrArg JEpisode.episode_id h
  rw [show (reconcileEpisode epA).episode_id = "A" from rfl,
      show (reconcileEpisode epB).episode_id = "B" from rfl] at h2
  exact absurd h2 (by decide)

/-! ### `step` on an empty frame list (C10) -/

/-- C10: when the frame list is empty, `step(d)` computes
`clamp(currentIndex + d, 0, -1) = -1` for every delta and every prior
index ≥ 0, and sets `currentTime` to 0 (`sortedFrames[-1]` is undefined,
so the `?? 0` fallback fires); `-1` is not a valid frame index and differs
from the empty-store sentinel `0` returned by `findFrameIndex`. -/
theorem c10_step_empty_sentinel (ci d : ℤ) (hci : 0 ≤ ci) (t : ℚ) :
    stepAt [] ci d = (-1, 0) ∧ findFrameIndex [] t = 0 ∧ (-1 : ℤ) ≠ 0 := by
  refine ⟨?_, rfl, by decide⟩
  have h1 : iClamp (ci + d) 0 ((List.length ([] : List RFrame) : ℤ) - 1) = -1 := by
    unfold iClamp
    simp only [List.length_nil]
    norm_num
  unfold stepAt
  rw [h1]
  rfl

/-- Witness for C10: a concrete step on the empty store. -/
theorem c10_witness :
    (0:ℤ) ≤ 3 ∧
    (stepAt [] 3 (-7) = (-1, 0) ∧ findFrameIndex [] 4 = 0 ∧ (-1 : ℤ) ≠ 0) :=
  ⟨by decide, c10_step_empty_sentinel 3 (-7) (by decide) 4⟩

/-! ### Exponential smoothing primitives (C9) -/

/-- C9: the smoothing primitives agree (`smoothValue` is the same formula
as `damp`); with `dt = 0` the result is exactly `current`; for positive
`lambda` and nonnegative `dt` the result lies between `current` and
`target` (no overshoot); and at `current = 0, target = 10, lambda = 8,
dt = 5` the result is within 1/1000 of the target (asymptotic
convergence). -/
theorem c9_smoothing_props :
    (∀ c tg l : ℝ, damp c tg l 0 = c ∧ smoothValue c tg l 0 = c) ∧
    (∀ c tg l dt : ℝ, smoothValue c tg l dt = damp c tg l dt) ∧
    (∀ c tg l dt : ℝ, 0 < l → 0 ≤ dt →
      min c tg ≤ damp c tg l dt ∧ damp c tg l dt ≤ max c tg) ∧
    |damp 0 10 8 5 - 10| < 1 / 1000 := by
  refine ⟨?_, ?_, ?_, ?_⟩
  · intro c tg l
    refine ⟨?_, ?_⟩
    · unfold damp
      simp
    · unfold smoothValue
      simp
  · intro c tg l dt
    rfl
  · intro c tg l dt hl hdt
    have hE0 : 0 < Real.exp (-(l * dt)) := Real.exp_pos _
    have hE1 : Real.exp (-(l * dt)) ≤ 1 := by
      rw [show (1:ℝ) = Real.exp 0 from (Real.exp_zero).symm]
      apply Real.exp_le_exp.mpr
      have : 0 ≤ l * dt := mul_nonneg (le_of_lt hl) hdt
      linarith
    set E := Real.exp (-(l * dt)) with hE
    rcases le_total c tg with hc | hc
    · have h1 : 0 ≤ tg - c := by linarith
      have h3 : 0 ≤ (tg - c) * (1 - E) := mul_nonneg h1 (by linarith)
      have h4 : 0 ≤ (tg - c) * E := mul_nonneg h1 (le_of_lt hE0)
      have h5 : (tg - c) * (1 - E) = (tg - c) - (tg - c) * E := by ring
      constructor
      · rw [min_eq_left hc]
        unfold damp
        rw [← hE]
        linarith
      · rw [max_eq_right hc]
        unfold damp
        rw [← hE]
        linarith
    · have h1 : 0 ≤ c - tg := by linarith
      have h3 : 0 ≤ (c - tg) * (1 - E) := mul_nonneg h1 (by linarith)
      have h4 : 0 ≤ (c - tg) * E := mul_nonneg h1 (le_of_lt hE0)
      have h5 : (tg - c) * (1 - E) = -((c - tg) - (c - tg) * E) := by ring
      constructor
      · rw [min_eq_right hc]
        unfold damp
        rw [← hE]
        linarith
      · rw [max_eq_left hc]
        unfold damp
        rw [← hE]
        linarith
  · have h2e : (2:ℝ) ≤ Real.exp 1 := by
      have := Real.add_one_le_exp (1:ℝ)
      linarith
    have hpow : (2:ℝ) ^ (40:ℕ) ≤ (Real.exp 1) ^ (40:ℕ) :=
      pow_le_pow_left (by norm_num) h2e 40
    have hexp40 : Real.exp 40 = (Real.exp 1) ^ (40:ℕ) := by
      rw [← Real.exp_nat_mul]
      norm_num
    have hbig : (10000:ℝ) < Real.exp 40 := by
      rw [hexp40]
      calc (10000:ℝ) < 2 ^ (40:ℕ) := by norm_num
        _ ≤ (Real.exp 1) ^ (40:ℕ) := hpow
    have hlt : Real.exp (-(40:ℝ)) < 1 / 10000 := by
      rw [Real.exp_neg, inv_eq_one_div]
      exact one_div_lt_one_div_of_lt (by norm_num) hbig
    have hdamp : damp 0 10 8 5 - 10 = -(10 * Real.exp (-(40:ℝ))) := by
      unfold damp
      rw [show -((8:ℝ) * 5) = (-40:ℝ) by norm_num]
      ring
    rw [hdamp, abs_neg, abs_of_nonneg (by positivity)]
    nlinarith [Real.exp_pos (-(40:ℝ))]

/-- Witness for C9: the no-overshoot bounds at the spec's concrete inputs. -/
theorem c9_witness :
    (0:ℝ) < 8 ∧ (0:ℝ) ≤ 5 ∧
    min (0:ℝ) 10 ≤ damp 0 10 8 5 ∧ damp 0 10 8 5 ≤ max (0:ℝ) 10 :=
  ⟨by norm_num, by norm_num,
   (c9_smoothing_props.2.2.1 0 10 8 5 (by norm_num) (by norm_num)).1,
   (c9_smoothing_props.2.2.1 0 10 8 5 (by norm_num) (by norm_num)).2⟩

/-! ### Arithmetic facts about the JS normalization primitives -/

/-- The function `jsMax` never produces NaN from non-NaN inputs. -/
theorem jsMax_ne_nan (a b : JSNum) (ha : a ≠ .nan) (hb : b ≠ .nan) : jsMax a b ≠ .nan := by
  cases a <;> cases b <;> simp_all [jsMax]

/-- The function `jsMin` never produces NaN from non-NaN inputs. -/
theorem jsMin_ne_nan (a b : JSNum) (ha : a ≠ .nan) (hb : b ≠ .nan) : jsMin a b ≠ .nan := by
  cases a <;> cases b <;> simp_all [jsMin]

/-- The idiom `x || d` never produces NaN when the default is not NaN. -/
theorem jsOr_ne_nan (x d : JSNum) (hd : d ≠ .nan) : jsOr x d ≠ .nan := by
  cases x <;> simp_all [jsOr]
  split_ifs <;> simp_all

/-- The idiom `x || 0` is idempotent. -/
theorem jsOr0_idem (x : JSNum) : jsOr (jsOr x (.fin 0)) (.fin 0) = jsOr x (.fin 0) := by
  cases x <;> simp [jsOr]
  split_ifs <;> simp_all [jsOr]

/-- The function `clampVec3` is idempotent. -/
theorem clampVec3_idem (v : Vec3) : clampVec3 (clampVec3 v) = clampVec3 v := by
  rcases v with ⟨a, b, c⟩
  simp [clampVec3, jsOr0_idem]

/-- The output coordinates of `clampVec3` are never NaN. -/
theorem clampVec3_noNaN (v : Vec3) : vecNoNaN (clampVec3 v) := by
  rcases v with ⟨a, b, c⟩
  exact ⟨jsOr_ne_nan a _ (by simp), jsOr_ne_nan b _ (by simp), jsOr_ne_nan c _ (by simp)⟩

/-- A finite-bounds `clamp` is idempotent when the bounds are ordered. -/
theorem jsClamp_fin_idem (lo hi : ℚ) (h : lo ≤ hi) (x : JSNum) :
    jsClamp (jsClamp x (.fin lo) (.fin hi)) (.fin lo) (.fin hi)
      = jsClamp x (.fin lo) (.fin hi) := by
  cases x with
  | nan => simp [jsClamp, jsMax, jsMin]
  | inf =>
    simp only [jsClamp, jsMax, jsMin]
    congr 1
    simp only [min_def, max_def]
    split_ifs <;> intros <;> first | rfl | linarith
  | ninf =>
    simp only [jsClamp, jsMax, jsMin]
    congr 1
    simp only [min_def, max_def]
    split_ifs <;> intros <;> first | rfl | linarith
  | fin q =>
    simp only [jsClamp, jsMax, jsMin]
    congr 1
    simp only [min_def, max_def]
    split_ifs <;> intros <;> first | rfl | linarith

/-- A finite-bounds `clamp` of a non-NaN value is not NaN. -/
theorem jsClamp_fin_ne_nan (lo hi : ℚ) (x : JSNum) (hx : x ≠ .nan) :
    jsClamp x (.fin lo) (.fin hi) ≠ .nan :=
  jsMin_ne_nan _ _ (by simp) (jsMax_ne_nan _ _ (by simp) hx)

/-- The function `clamp01` is idempotent. -/
theorem clamp01_idem (x : JSNum) : clamp01 (clamp01 x) = clamp01 x :=
  jsClamp_fin_idem 0 1 (by norm_num) x

/-- Applying `clamp01` to a non-NaN value is not NaN. -/
theorem clamp01_ne_nan (x : JSNum) (hx : x ≠ .nan) : clamp01 x ≠ .nan :=
  jsClamp_fin_ne_nan 0 1 x hx

/-- The `Math.max(a, Number(x) || a)` flooring pattern is idempotent for a
nonnegative floor `a`. -/
theorem jsFloor_idem (a : ℚ) (ha : 0 ≤ a) (x : JSNum) :
    jsMax (.fin a) (jsOr (jsMax (.fin a) (jsOr x (.fin a))) (.fin a))
      = jsMax (.fin a) (jsOr x (.fin a)) := by
  cases x with
  | nan => simp [jsOr, jsMax, max_self]
  | inf => simp [jsOr, jsMax]
  | ninf => simp [jsOr, jsMax, max_self]
  | fin q =>
    by_cases h1 : q = 0
    · subst h1
      simp [jsOr, jsMax, max_self]
    · rw [show jsOr (JSNum.fin q) (.fin a) = .fin q from by simp [jsOr, h1]]
      simp only [jsMax]
      by_cases h2 : max a q = 0
      · have ha0 : a = 0 := le_antisymm (h2 ▸ le_max_left a q) ha
        rw [show jsOr (JSNum.fin (max a q)) (.fin a) = .fin a from by simp [jsOr, h2]]
        simp only [jsMax]
        rw [max_self, h2, ha0]
      · rw [show jsOr (JSNum.fin (max a q)) (.fin a) = .fin (max a q) from by
          simp [jsOr, h2]]
        simp only [jsMax]
        rw [max_eq_right (le_max_left a q)]

/-- The function `floorRadius` is idempotent. -/
theorem floorRadius_idem (x : JSNum) : floorRadius (floorRadius x) = floorRadius x :=
  jsFloor_idem (1 / 100) (by norm_num) x

/-- The function `floorSpeed` is idempotent. -/
theorem floorSpeed_idem (x : JSNum) : floorSpeed (floorSpeed x) = floorSpeed x :=
  jsFloor_idem 0 (le_refl 0) x

/-- The function `floorRadius` never yields NaN. -/
theorem floorRadius_ne_nan (x : JSNum) : floorRadius x ≠ .nan :=
  jsMax_ne_nan _ _ (by simp) (jsOr_ne_nan x _ (by simp))

/-- The function `floorSpeed` never yields NaN. -/
theorem floorSpeed_ne_nan (x : JSNum) : floorSpeed x ≠ .nan :=
  jsMax_ne_nan _ _ (by simp) (jsOr_ne_nan x _ (by simp))

/-! ### Normalization is idempotent and preserves well-formedness -/

/-- Mapping an idempotent function twice is mapping it once. -/
theorem map_idem {α : Type} (f : α → α) (hf : ∀ x, f (f x) = f x) (l : List α) :
    (l.map f).map f = l.map f := by
  induction l with
  | nil => rfl
  | cons x xs ih => simp [hf, ih]

theorem normalizeNode_idem (n : VisualNode) :
    normalizeNode (normalizeNode n) = normalizeNode n := by
  rcases n with ⟨i, sh, pos, col, it, op, sc⟩
  simp only [normalizeNode, clampVec3_idem, clamp01_idem]
  cases sc with
  | none => rfl
  | some s =>
    simp only [Option.map_some']
    rw [jsClamp_fin_idem (1/10) 5 (by norm_num)]

theorem normalizeLoop_idem (l : VisualLoop) :
    normalizeLoop (normalizeLoop l) = normalizeLoop l := by
  rcases l with ⟨i, ty, ce, ra, it, fsp, bo, de⟩
  simp only [normalizeLoop, clampVec3_idem, clamp01_idem, floorRadius_idem, floorSpeed_idem]
  cases bo <;> cases de <;> simp [clamp01_idem]

theorem normalizeLever_idem (l : VisualLever) :
    normalizeLever (normalizeLever l) = normalizeLever l := by
  rcases l with ⟨i, ta, pos, st⟩
  simp only [normalizeLever, clampVec3_idem, clamp01_idem]

theorem normalizeFlow_idem (f : VisualFlow) :
    normalizeFlow (normalizeFlow f) = normalizeFlow f := by
  rcases f with ⟨i, fr, tg, ty, sp, it, co⟩
  simp only [normalizeFlow, floorSpeed_idem]
  cases it <;> simp [clamp01_idem]

theorem normalizeField_idem (f : VisualField) :
    normalizeField (normalizeField f) = normalizeField f := by
  rcases f with ⟨ch, de, no⟩
  simp only [normalizeField, clamp01_idem]

theorem normalizeState_idem (d : VisualState) :
    normalizeState (normalizeState d) = normalizeState d := by
  rcases d with ⟨t, fo, ns, ls, lv, fl, fi⟩
  cases fl <;> cases fi <;>
    simp [normalizeState, map_idem normalizeNode normalizeNode_idem,
      map_idem normalizeLoop normalizeLoop_idem,
      map_idem normalizeLever normalizeLever_idem,
      map_idem normalizeFlow normalizeFlow_idem, normalizeField_idem]

theorem normalizeNode_wf (n : VisualNode) (h : wfNode n) : wfNode (normalizeNode n) := by
  obtain ⟨h1, h2, h3, h4, h5⟩ := h
  refine ⟨h1, clampVec3_noNaN _, clamp01_ne_nan _ h3, clamp01_ne_nan _ h4, ?_⟩
  intro s hs
  simp only [normalizeNode, Option.map_eq_some'] at hs
  obtain ⟨s0, hs0, rfl⟩ := hs
  exact jsClamp_fin_ne_nan _ _ _ (h5 s0 hs0)

theorem normalizeLoop_wf (l : VisualLoop) (h : wfLoop l) : wfLoop (normalizeLoop l) := by
  obtain ⟨h1, h2, h3, h4, h5, h6, h7⟩ := h
  refine ⟨h1, clampVec3_noNaN _, floorRadius_ne_nan _, clamp01_ne_nan _ h4,
    floorSpeed_ne_nan _, ?_, ?_⟩
  · intro s hs
    simp only [normalizeLoop, Option.map_eq_some'] at hs
    obtain ⟨s0, hs0, rfl⟩ := hs
    exact clamp01_ne_nan _ (h6 s0 hs0)
  · intro s hs
    simp only [normalizeLoop, Option.map_eq_some'] at hs
    obtain ⟨s0, hs0, rfl⟩ := hs
    exact clamp01_ne_nan _ (h7 s0 hs0)

theorem normalizeLever_wf (l : VisualLever) (h : wfLever l) : wfLever (normalizeLever l) := by
  obtain ⟨h1, h2, h3, h4⟩ := h
  exact ⟨h1, h2, clampVec3_noNaN _, clamp01_ne_nan _ h4⟩

theorem normalizeFlow_wf (f : VisualFlow) (h : wfFlow f) : wfFlow (normalizeFlow f) := by
  obtain ⟨h1, h2, h3, h4, h5⟩ := h
  refine ⟨h1, h2, h3, floorSpeed_ne_nan _, ?_⟩
  intro s hs
  simp only [normalizeFlow, Option.map_eq_some'] at hs
  obtain ⟨s0, hs0, rfl⟩ := hs
  exact clamp01_ne_nan _ (h5 s0 hs0)

theorem normalizeField_wf (f : VisualField) (h : wfField f) : wfField (normalizeField f) := by
  obtain ⟨h1, h2, h3⟩ := h
  exact ⟨clamp01_ne_nan _ h1, clamp01_ne_nan _ h2, clamp01_ne_nan _ h3⟩

theorem normalizeState_wf (d : VisualState) (h : wfState d) : wfState (normalizeState d) := by
  obtain ⟨h1, h2, h3, h4, h5, h6⟩ := h
  refine ⟨h1, ?_, ?_, ?_, ?_, ?_⟩
  · intro n hn
    simp only [normalizeState, List.mem_map] at hn
    obtain ⟨n0, hn0, rfl⟩ := hn
    exact normalizeNode_wf n0 (h2 n0 hn0)
  · intro l hl
    simp only [normalizeState, List.mem_map] at hl
    obtain ⟨l0, hl0, rfl⟩ := hl
    exact normalizeLoop_wf l0 (h3 l0 hl0)
  · intro l hl
    simp only [normalizeState, List.mem_map] at hl
    obtain ⟨l0, hl0, rfl⟩ := hl
    exact normalizeLever_wf l0 (h4 l0 hl0)
  · intro fl hfl f hf
    simp only [normalizeState, Option.map_eq_some'] at hfl
    obtain ⟨fl0, hfl0, rfl⟩ := hfl
    simp only [List.mem_map] at hf
    obtain ⟨f0, hf0, rfl⟩ := hf
    exact normalizeFlow_wf f0 (h5 fl0 hfl0 f0 hf0)
  · intro fi hfi
    simp only [normalizeState, Option.map_eq_some'] at hfi
    obtain ⟨fi0, hfi0, rfl⟩ := hfi
    exact normalizeField_wf fi0 (h6 fi0 hfi0)

/-! ### Soundness: what the schema guarantees about its typed output -/

theorem pNum_sound {v : JVal} {n : JSNum} (h : pNum v = some n) : n ≠ .nan := by
  cases v with
  | jnum m =>
    simp only [pNum] at h
    split_ifs at h with hm
    · injection h with h2
      subst h2
      exact hm
  | jnull => simp [pNum] at h
  | jbool b => simp [pNum] at h
  | jstr s => simp [pNum] at h
  | jarr l => simp [pNum] at h
  | jobj fs => simp [pNum] at h

theorem pStr1_sound {v : JVal} {s : String} (h : pStr1 v = some s) : 1 ≤ s.length := by
  cases v with
  | jstr s2 =>
    simp only [pStr1] at h
    split_ifs at h with hs
    · injection h with h2
      subst h2
      exact hs
  | jnull => simp [pStr1] at h
  | jbool b => simp [pStr1] at h
  | jnum n => simp [pStr1] at h
  | jarr l => simp [pStr1] at h
  | jobj fs => simp [pStr1] at h

theorem pVec3_sound {v : JVal} {w : Vec3} (h : pVec3 v = some w) : vecNoNaN w := by
  cases v with
  | jarr items =>
    rcases items with _ | ⟨a, _ | ⟨b, _ | ⟨c, _ | ⟨d2, rest⟩⟩⟩⟩
    · simp [pVec3] at h
    · simp [pVec3] at h
    · simp [pVec3] at h
    · simp only [pVec3, Option.pure_def, Option.bind_eq_bind, Option.bind_eq_some] at h
      obtain ⟨x, hx, y, hy, z, hz, hw⟩ := h
      obtain rfl := Option.some.inj hw
      exact ⟨pNum_sound hx, pNum_sound hy, pNum_sound hz⟩
    · simp [pVec3] at h
  | jnull => simp [pVec3] at h
  | jbool b => simp [pVec3] at h
  | jnum n => simp [pVec3] at h
  | jstr s => simp [pVec3] at h
  | jobj fs => simp [pVec3] at h

theorem reqField_some {α : Type} {fs : List (String × JVal)} {k : String}
    {p : JVal → Option α} {a : α} (h : reqField fs k p = some a) :
    ∃ v, getKey fs k = some v ∧ p v = some a := by
  unfold reqField at h
  cases hg : getKey fs k with
  | none =>
    rw [hg] at h
    cases h
  | some v =>
    rw [hg] at h
    exact ⟨v, rfl, h⟩

theorem optField_some {α : Type} {fs : List (String × JVal)} {k : String}
    {p : JVal → Option α} {o : Option α} (h : optField fs k p = some o) :
    o = none ∨ ∃ v a, getKey fs k = some v ∧ p v = some a ∧ o = some a := by
  unfold optField at h
  cases hg : getKey fs k with
  | none =>
    rw [hg] at h
    left
    exact (Option.some.inj h).symm
  | some v =>
    rw [hg] at h
    have h2 : (p v).map some = some o := h
    cases hp : p v with
    | none =>
      rw [hp] at h2
      simp at h2
    | some a =>
      rw [hp] at h2
      right
      exact ⟨v, a, rfl, hp, (Option.some.inj (by simpa using h2)).symm⟩

theorem optField_pNum_sound {fs : List (String × JVal)} {k : String} {o : Option JSNum}
    (h : optField fs k pNum = some o) : ∀ s, o = some s → s ≠ .nan := by
  intro s hs
  rcases optField_some h with h1 | ⟨v, a, hg, hp, ho⟩
  · rw [h1] at hs
    cases hs
  · rw [ho] at hs
    obtain rfl := Option.some.inj hs
    exact pNum_sound hp

/-- Pointwise soundness lifts through elementwise array parsing. -/
theorem pListAux_sound {α : Type} {p : JVal → Option α} {P : α → Prop}
    (hp : ∀ v a, p v = some a → P a) :
    ∀ {items : List JVal} {l : List α}, pListAux p items = some l → ∀ a ∈ l, P a := by
  intro items
  induction items with
  | nil =>
    intro l h a ha
    simp only [pListAux] at h
    obtain rfl := (Option.some.inj h).symm
    cases ha
  | cons x xs ih =>
    intro l h a ha
    simp only [pListAux, Option.pure_def, Option.bind_eq_bind, Option.bind_eq_some] at h
    obtain ⟨b, hb, bs, hbs, hl⟩ := h
    obtain rfl := Option.some.inj hl
    rcases List.mem_cons.mp ha with rfl | ha2
    · exact hp x a hb
    · exact ih hbs a ha2

theorem pList_sound {α : Type} {p : JVal → Option α} {P : α → Prop}
    (hp : ∀ v a, p v = some a → P a) {v : JVal} {l : List α}
    (h : pList p v = some l) : ∀ a ∈ l, P a := by
  cases v with
  | jarr items => exact pListAux_sound hp h
  | jnull => simp [pList] at h
  | jbool b => simp [pList] at h
  | jnum n => simp [pList] at h
  | jstr s => simp [pList] at h
  | jobj fs => simp [pList] at h

theorem pNode_sound {v : JVal} {n : VisualNode} (h : pNode v = some n) : wfNode n := by
  cases v with
  | jobj fs =>
    simp only [pNode, Option.pure_def, Option.bind_eq_bind, Option.bind_eq_some] at h
    obtain ⟨i, hi, sh, hsh, pos, hpos, col, hcol, it, hit, op, hop, sc, hsc, hw⟩ := h
    obtain rfl := Option.some.inj hw
    obtain ⟨v1, hg1, hp1⟩ := reqField_some hi
    obtain ⟨v3, hg3, hp3⟩ := reqField_some hpos
    obtain ⟨v5, hg5, hp5⟩ := reqField_some hit
    obtain ⟨v6, hg6, hp6⟩ := reqField_some hop
    exact ⟨pStr1_sound hp1, pVec3_sound hp3, pNum_sound hp5, pNum_sound hp6,
      optField_pNum_sound hsc⟩
  | jnull => simp [pNode] at h
  | jbool b => simp [pNode] at h
  | jnum m => simp [pNode] at h
  | jstr s => simp [pNode] at h
  | jarr l => simp [pNode] at h

theorem pLoop_sound {v : JVal} {l : VisualLoop} (h : pLoop v = some l) : wfLoop l := by
  cases v with
  | jobj fs =>
    simp only [pLoop, Option.pure_def, Option.bind_eq_bind, Option.bind_eq_some] at h
    obtain ⟨i, hi, ty, hty, ce, hce, r, hr, it, hit, fsp, hfsp, bo, hbo, de, hde, hw⟩ := h
    obtain rfl := Option.some.inj hw
    obtain ⟨v1, hg1, hp1⟩ := reqField_some hi
    obtain ⟨v3, hg3, hp3⟩ := reqField_some hce
    obtain ⟨v4, hg4, hp4⟩ := reqField_some hr
    obtain ⟨v5, hg5, hp5⟩ := reqField_some hit
    obtain ⟨v6, hg6, hp6⟩ := reqField_some hfsp
    exact ⟨pStr1_sound hp1, pVec3_sound hp3, pNum_sound hp4, pNum_sound hp5,
      pNum_sound hp6, optField_pNum_sound hbo, optField_pNum_sound hde⟩
  | jnull => simp [pLoop] at h
  | jbool b => simp [pLoop] at h
  | jnum m => simp [pLoop] at h
  | jstr s => simp [pLoop] at h
  | jarr ar => simp [pLoop] at h

theorem pLever_sound {v : JVal} {l : VisualLever} (h : pLever v = some l) : wfLever l := by
  cases v with
  | jobj fs =>
    simp only [pLever, Option.pure_def, Option.bind_eq_bind, Option.bind_eq_some] at h
    obtain ⟨i, hi, ta, hta, pos, hpos, st, hst, hw⟩ := h
    obtain rfl := Option.some.inj hw
    obtain ⟨v1, hg1, hp1⟩ := reqField_some hi
    obtain ⟨v2, hg2, hp2⟩ := reqField_some hta
    obtain ⟨v3, hg3, hp3⟩ := reqField_some hpos
    obtain ⟨v4, hg4, hp4⟩ := reqField_some hst
    exact ⟨pStr1_sound hp1, pStr1_sound hp2, pVec3_sound hp3, pNum_sound hp4⟩
  | jnull => simp [pLever] at h
  | jbool b => simp [pLever] at h
  | jnum m => simp [pLever] at h
  | jstr s => simp [pLever] at h
  | jarr ar => simp [pLever] at h

theorem pFlow_sound {v : JVal} {f : VisualFlow} (h : pFlow v = some f) : wfFlow f := by
  cases v with
  | jobj fs =>
    simp only [pFlow, Option.pure_def, Option.bind_eq_bind, Option.bind_eq_some] at h
    obtain ⟨i, hi, fr, hfr, tg, htg, ty, hty, sp, hsp, it, hit, co, hco, hw⟩ := h
    obtain rfl := Option.some.inj hw
    obtain ⟨v1, hg1, hp1⟩ := reqField_some hi
    obtain ⟨v2, hg2, hp2⟩ := reqField_some hfr
    obtain ⟨v3, hg3, hp3⟩ := reqField_some htg
    obtain ⟨v5, hg5, hp5⟩ := reqField_some hsp
    exact ⟨pStr1_sound hp1, pStr1_sound hp2, pStr1_sound hp3, pNum_sound hp5,
      optField_pNum_sound hit⟩
  | jnull => simp [pFlow] at h
  | jbool b => simp [pFlow] at h
  | jnum m => simp [pFlow] at h
  | jstr s => simp [pFlow] at h
  | jarr ar => simp [pFlow] at h

theorem pField_sound {v : JVal} {f : VisualField} (h : pField v = some f) : wfField f := by
  cases v with
  | jobj fs =>
    simp only [pField, Option.pure_def, Option.bind_eq_bind, Option.bind_eq_some] at h
    obtain ⟨ch, hch, de, hde, no, hno, hw⟩ := h
    obtain rfl := Option.some.inj hw
    obtain ⟨v1, hg1, hp1⟩ := reqField_some hch
    obtain ⟨v2, hg2, hp2⟩ := reqField_some hde
    obtain ⟨v3, hg3, hp3⟩ := reqField_some hno
    exact ⟨pNum_sound hp1, pNum_sound hp2, pNum_sound hp3⟩
  | jnull => simp [pField] at h
  | jbool b => simp [pField] at h
  | jnum m => simp [pField] at h
  | jstr s => simp [pField] at h
  | jarr ar => simp [pField] at h

theorem pState_sound {v : JVal} {d : VisualState} (h : pState v = some d) : wfState d := by
  cases v with
  | jobj fs =>
    simp only [pState, Option.pure_def, Option.bind_eq_bind, Option.bind_eq_some] at h
    obtain ⟨t, ht, fo, hfo, ns, hns, ls, hls, lv, hlv, fl, hfl, fi, hfi, hw⟩ := h
    obtain rfl := Option.some.inj hw
    obtain ⟨v3, hg3, hp3⟩ := reqField_some hns
    obtain ⟨v4, hg4, hp4⟩ := reqField_some hls
    obtain ⟨v5, hg5, hp5⟩ := reqField_some hlv
    refine ⟨optField_pNum_sound ht, ?_, ?_, ?_, ?_, ?_⟩
    · exact pList_sound (fun v a ha => pNode_sound ha) hp3
    · exact pList_sound (fun v a ha => pLoop_sound ha) hp4
    · exact pList_sound (fun v a ha => pLever_sound ha) hp5
    · intro fl2 hfl2 f2 hf2
      rcases optField_some hfl with h1 | ⟨v6, a6, hg6, hp6, ho6⟩
      · rw [h1] at hfl2
        cases hfl2
      · rw [ho6] at hfl2
        obtain rfl := Option.some.inj hfl2
        exact pList_sound (fun v a ha => pFlow_sound ha) hp6 f2 hf2
    · intro fi2 hfi2
      rcases optField_some hfi with h1 | ⟨v7, a7, hg7, hp7, ho7⟩
      · rw [h1] at hfi2
        cases hfi2
      · rw [ho7] at hfi2
        obtain rfl := Option.some.inj hfi2
        exact pField_sound hp7
  | jnull => simp [pState] at h
  | jbool b => simp [pState] at h
  | jnum m => simp [pState] at h
  | jstr s => simp [pState] at h
  | jarr ar => simp [pState] at h

/-! ### Roundtrip: a well-formed typed value re-parses to itself -/

theorem pNum_jnum {n : JSNum} (h : n ≠ .nan) : pNum (.jnum n) = some n := by
  simp [pNum, h]

theorem pStr1_jstr {s : String} (h : 1 ≤ s.length) : pStr1 (.jstr s) = some s := by
  simp [pStr1, h]

theorem pVec3_roundtrip (v : Vec3) (h : vecNoNaN v) : pVec3 (vec3J v) = some v := by
  rcases v with ⟨a, b, c⟩
  obtain ⟨h1, h2, h3⟩ := h
  simp [vec3J, pVec3, pNum, h1, h2, h3]

theorem pShape_roundtrip (sh : NodeShape) : pShape (shapeJ sh) = some sh := by
  cases sh <;> rfl

theorem pLoopType_roundtrip (ty : LoopType) : pLoopType (loopTypeJ ty) = some ty := by
  cases ty <;> rfl

theorem pFlowStyle_roundtrip (ty : FlowStyle) : pFlowStyle (flowStyleJ ty) = some ty := by
  cases ty <;> rfl

theorem pNode_roundtrip (n : VisualNode) (h : wfNode n) : pNode (nodeJ n) = some n := by
  rcases n with ⟨i, sh, pos, col, it, op, sc⟩
  obtain ⟨h1, h2, h3, h4, h5⟩ := h
  cases sc with
  | none =>
    simp [nodeJ, optJ, pNode, reqField, optField, getKey, pStr,
      pStr1_jstr h1, pShape_roundtrip, pVec3_roundtrip pos h2, pNum_jnum h3, pNum_jnum h4]
  | some s =>
    have hs : s ≠ .nan := h5 s rfl
    simp [nodeJ, optJ, pNode, reqField, optField, getKey, pStr,
      pStr1_jstr h1, pShape_roundtrip, pVec3_roundtrip pos h2, pNum_jnum h3, pNum_jnum h4,
      pNum_jnum hs]

theorem pLoop_roundtrip (l : VisualLoop) (h : wfLoop l) : pLoop (loopJ l) = some l := by
  rcases l with ⟨i, ty, ce, ra, it, fsp, bo, de⟩
  obtain ⟨h1, h2, h3, h4, h5, h6, h7⟩ := h
  cases bo with
  | none =>
    cases de with
    | none =>
      simp [loopJ, optJ, pLoop, reqField, optField, getKey,
        pStr1_jstr h1, pLoopType_roundtrip, pVec3_roundtrip ce h2, pNum_jnum h3,
        pNum_jnum h4, pNum_jnum h5]
    | some d2 =>
      have hd : d2 ≠ .nan := h7 d2 rfl
      simp [loopJ, optJ, pLoop, reqField, optField, getKey,
        pStr1_jstr h1, pLoopType_roundtrip, pVec3_roundtrip ce h2, pNum_jnum h3,
        pNum_jnum h4, pNum_jnum h5, pNum_jnum hd]
  | some b2 =>
    have hb : b2 ≠ .nan := h6 b2 rfl
    cases de with
    | none =>
      simp [loopJ, optJ, pLoop, reqField, optField, getKey,
        pStr1_jstr h1, pLoopType_roundtrip, pVec3_roundtrip ce h2, pNum_jnum h3,
        pNum_jnum h4, pNum_jnum h5, pNum_jnum hb]
    | some d2 =>
      have hd : d2 ≠ .nan := h7 d2 rfl
      simp [loopJ, optJ, pLoop, reqField, optField, getKey,
        pStr1_jstr h1, pLoopType_roundtrip, pVec3_roundtrip ce h2, pNum_jnum h3,
        pNum_jnum h4, pNum_jnum h5, pNum_jnum hb, pNum_jnum hd]

theorem pLever_roundtrip (l : VisualLever) (h : wfLever l) : pLever (leverJ l) = some l := by
  rcases l with ⟨i, ta, pos, st⟩
  obtain ⟨h1, h2, h3, h4⟩ := h
  simp [leverJ, pLever, reqField, getKey, pStr1_jstr h1, pStr1_jstr h2,
    pVec3_roundtrip pos h3, pNum_jnum h4]

theorem pFlow_roundtrip (f : VisualFlow) (h : wfFlow f) : pFlow (flowJ f) = some f := by
  rcases f with ⟨i, fr, tg, ty, sp, it, co⟩
  obtain ⟨h1, h2, h3, h4, h5⟩ := h
  cases it with
  | none =>
    cases co with
    | none =>
      simp [flowJ, optJ, pFlow, reqField, optField, getKey, pStr,
        pStr1_jstr h1, pStr1_jstr h2, pStr1_jstr h3, pFlowStyle_roundtrip, pNum_jnum h4]
    | some c2 =>
      simp [flowJ, optJ, pFlow, reqField, optField, getKey, pStr,
        pStr1_jstr h1, pStr1_jstr h2, pStr1_jstr h3, pFlowStyle_roundtrip, pNum_jnum h4]
  | some i2 =>
    have hi2 : i2 ≠ .nan := h5 i2 rfl
    cases co with
    | none =>
      simp [flowJ, optJ, pFlow, reqField, optField, getKey, pStr,
        pStr1_jstr h1, pStr1_jstr h2, pStr1_jstr h3, pFlowStyle_roundtrip, pNum_jnum h4,
        pNum_jnum hi2]
    | some c2 =>
      simp [flowJ, optJ, pFlow, reqField, optField, getKey, pStr,
        pStr1_jstr h1, pStr1_jstr h2, pStr1_jstr h3, pFlowStyle_roundtrip, pNum_jnum h4,
        pNum_jnum hi2]

theorem pField_roundtrip (f : VisualField) (h : wfField f) : pField (fieldJ f) = some f := by
  rcases f with ⟨ch, de, no⟩
  obtain ⟨h1, h2, h3⟩ := h
  simp [fieldJ, pField, reqField, getKey, pNum_jnum h1, pNum_jnum h2, pNum_jnum h3]

theorem pListAux_roundtrip {α : Type} {p : JVal → Option α} {g : α → JVal} :
    ∀ {l : List α}, (∀ x ∈ l, p (g x) = some x) → pListAux p (l.map g) = some l := by
  intro l
  induction l with
  | nil => intro h; rfl
  | cons x xs ih =>
    intro h
    rw [List.map_cons]
    show ((p (g x)).bind fun a => (pListAux p (xs.map g)).bind fun as => some (a :: as))
      = some (x :: xs)
    rw [h x (by simp), ih (fun y hy => h y (by simp [hy]))]
    rfl

theorem pState_roundtrip (d : VisualState) (h : wfState d) : pState (stateJ d) = some d := by
  rcases d with ⟨t, fo, ns, ls, lv, fl, fi⟩
  obtain ⟨h1, h2, h3, h4, h5, h6⟩ := h
  have hns : pListAux pNode (ns.map nodeJ) = some ns :=
    pListAux_roundtrip (fun x hx => pNode_roundtrip x (h2 x hx))
  have hls : pListAux pLoop (ls.map loopJ) = some ls :=
    pListAux_roundtrip (fun x hx => pLoop_roundtrip x (h3 x hx))
  have hlv : pListAux pLever (lv.map leverJ) = some lv :=
    pListAux_roundtrip (fun x hx => pLever_roundtrip x (h4 x hx))
  cases t with
  | none =>
    cases fo with
    | none =>
      cases fl with
      | none =>
        cases fi with
        | none =>
          simp [stateJ, optJ, pState, reqField, optField, getKey, pList, hns, hls, hlv]
        | some fi2 =>
          simp [stateJ, optJ, pState, reqField, optField, getKey, pList, hns, hls, hlv,
            pField_roundtrip fi2 (h6 fi2 rfl)]
      | some fl2 =>
        have hfl : pListAux pFlow (fl2.map flowJ) = some fl2 :=
          pListAux_roundtrip (fun x hx => pFlow_roundtrip x (h5 fl2 rfl x hx))
        cases fi with
        | none =>
          simp [stateJ, optJ, pState, reqField, optField, getKey, pList, hns, hls, hlv, hfl]
        | some fi2 =>
          simp [stateJ, optJ, pState, reqField, optField, getKey, pList, hns, hls, hlv, hfl,
            pField_roundtrip fi2 (h6 fi2 rfl)]
    | some fo2 =>
      cases fl with
      | none =>
        cases fi with
        | none =>
          simp [stateJ, optJ, pState, reqField, optField, getKey, pList, pStr, hns, hls, hlv]
        | some fi2 =>
          simp [stateJ, optJ, pState, reqField, optField, getKey, pList, pStr, hns, hls, hlv,
            pField_roundtrip fi2 (h6 fi2 rfl)]
      | some fl2 =>
        have hfl : pListAux pFlow (fl2.map flowJ) = some fl2 :=
          pListAux_roundtrip (fun x hx => pFlow_roundtrip x (h5 fl2 rfl x hx))
        cases fi with
        | none =>
          simp [stateJ, optJ, pState, reqField, optField, getKey, pList, pStr, hns, hls, hlv,
            hfl]
        | some fi2 =>
          simp [stateJ, optJ, pState, reqField, optField, getKey, pList, pStr, hns, hls, hlv,
            hfl, pField_roundtrip fi2 (h6 fi2 rfl)]
  | some t2 =>
    have ht2 : t2 ≠ .nan := h1 t2 rfl
    cases fo with
    | none =>
      cases fl with
      | none =>
        cases fi with
        | none =>
          simp [stateJ, optJ, pState, reqField, optField, getKey, pList, hns, hls, hlv,
            pNum_jnum ht2]
        | some fi2 =>
          simp [stateJ, optJ, pState, reqField, optField, getKey, pList, hns, hls, hlv,
            pNum_jnum ht2, pField_roundtrip fi2 (h6 fi2 rfl)]
      | some fl2 =>
        have hfl : pListAux pFlow (fl2.map flowJ) = some fl2 :=
          pListAux_roundtrip (fun x hx => pFlow_roundtrip x (h5 fl2 rfl x hx))
        cases fi with
        | none =>
          simp [stateJ, optJ, pState, reqField, optField, getKey, pList, hns, hls, hlv,
            pNum_jnum ht2, hfl]
        | some fi2 =>
          simp [stateJ, optJ, pState, reqField, optField, getKey, pList, hns, hls, hlv,
            pNum_jnum ht2, hfl, pField_roundtrip fi2 (h6 fi2 rfl)]
    | some fo2 =>
      cases fl with
      | none =>
        cases fi with
        | none =>
          simp [stateJ, optJ, pState, reqField, optField, getKey, pList, pStr, hns, hls, hlv,
            pNum_jnum ht2]
        | some fi2 =>
          simp [stateJ, optJ, pState, reqField, optField, getKey, pList, pStr, hns, hls, hlv,
            pNum_jnum ht2, pField_roundtrip fi2 (h6 fi2 rfl)]
      | some fl2 =>
        have hfl : pListAux pFlow (fl2.map flowJ) = some fl2 :=
          pListAux_roundtrip (fun x hx => pFlow_roundtrip x (h5 fl2 rfl x hx))
        cases fi with
        | none =>
          simp [stateJ, optJ, pState, reqField, optField, getKey, pList, pStr, hns, hls, hlv,
            pNum_jnum ht2, hfl]
        | some fi2 =>
          simp [stateJ, optJ, pState, reqField, optField, getKey, pList, pStr, hns, hls, hlv,
            pNum_jnum ht2, hfl, pField_roundtrip fi2 (h6 fi2 rfl)]

/-- C6: `parseVisualState` is idempotent — validating the normalized
output of a successful validation succeeds and returns that output
unchanged (`stateJ` re-embeds the typed output as the raw value the
second call receives). -/
theorem c6_parse_idempotent (x : JVal) (d : VisualState)
    (h : parseVisualState x = .ok d) :
    parseVisualState (stateJ d) = .ok d := by
  unfold parseVisualState at h ⊢
  cases hx : pState x with
  | none =>
    rw [hx] at h
    exact absurd h (by simp)
  | some d0 =>
    rw [hx] at h
    have hd : normalizeState d0 = d := by
      have h2 : (Except.ok (normalizeState d0) : Except String VisualState) = Except.ok d := h
      injection h2
    subst hd
    have hwf : wfState (normalizeState d0) := normalizeState_wf d0 (pState_sound hx)
    rw [pState_roundtrip _ hwf]
    show Except.ok (normalizeState (normalizeState d0)) = Except.ok (normalizeState d0)
    rw [normalizeState_idem]

/-- Witness for C6: a concrete payload (a single node with an infinite
x-coordinate and out-of-range intensity) parses, and re-validating the
normalized output returns it unchanged. -/
theorem c6_witness :
    parseVisualState infPosPayload = .ok infPosParsed ∧
    parseVisualState (stateJ infPosParsed) = .ok infPosParsed :=
  ⟨rfl, c6_parse_idempotent infPosPayload infPosParsed rfl⟩

/-! ### Completeness: structural well-shapedness implies parse success -/

theorem wsNum_complete {v : JVal} (h : wsNum v = true) : ∃ n, pNum v = some n := by
  cases v with
  | jnum n =>
    simp only [wsNum, Bool.not_eq_true'] at h
    have hn : n ≠ .nan := by simpa using h
    exact ⟨n, by simp [pNum, hn]⟩
  | jnull => simp [wsNum] at h
  | jbool b => simp [wsNum] at h
  | jstr s => simp [wsNum] at h
  | jarr l => simp [wsNum] at h
  | jobj fs => simp [wsNum] at h

theorem wsStr_complete {v : JVal} (h : wsStr v = true) : ∃ s, pStr v = some s := by
  cases v with
  | jstr s => exact ⟨s, rfl⟩
  | jnull => simp [wsStr] at h
  | jbool b => simp [wsStr] at h
  | jnum n => simp [wsStr] at h
  | jarr l => simp [wsStr] at h
  | jobj fs => simp [wsStr] at h

theorem wsStr1_complete {v : JVal} (h : wsStr1 v = true) : ∃ s, pStr1 v = some s := by
  cases v with
  | jstr s =>
    have hs : 1 ≤ s.length := by simpa [wsStr1] using h
    exact ⟨s, by simp [pStr1, hs]⟩
  | jnull => simp [wsStr1] at h
  | jbool b => simp [wsStr1] at h
  | jnum n => simp [wsStr1] at h
  | jarr l => simp [wsStr1] at h
  | jobj fs => simp [wsStr1] at h

theorem wsVec3_complete {v : JVal} (h : wsVec3 v = true) : ∃ w, pVec3 v = some w := by
  cases v with
  | jarr items =>
    rcases items with _ | ⟨a, _ | ⟨b, _ | ⟨c, _ | ⟨d2, rest⟩⟩⟩⟩
    · simp [wsVec3] at h
    · simp [wsVec3] at h
    · simp [wsVec3] at h
    · simp only [wsVec3, Bool.and_eq_true] at h
      obtain ⟨⟨ha, hb⟩, hc⟩ := h
      obtain ⟨x, hx⟩ := wsNum_complete ha
      obtain ⟨y, hy⟩ := wsNum_complete hb
      obtain ⟨z, hz⟩ := wsNum_complete hc
      refine ⟨(x, y, z), ?_⟩
      show ((pNum a).bind fun x2 => (pNum b).bind fun y2 => (pNum c).bind fun z2 =>
        some (x2, y2, z2)) = some (x, y, z)
      rw [hx, hy, hz]
      rfl
    · simp [wsVec3] at h
  | jnull => simp [wsVec3] at h
  | jbool b => simp [wsVec3] at h
  | jnum n => simp [wsVec3] at h
  | jstr s => simp [wsVec3] at h
  | jobj fs => simp [wsVec3] at h

theorem wsShape_complete {v : JVal} (h : wsShape v = true) : ∃ sh, pShape v = some sh := by
  cases v with
  | jstr s =>
    simp only [wsShape, Bool.or_eq_true, beq_iff_eq] at h
    rcases h with ((h | h) | h) | h <;> subst h
    · exact ⟨.sphere, rfl⟩
    · exact ⟨.box, rfl⟩
    · exact ⟨.ico, rfl⟩
    · exact ⟨.dodeca, rfl⟩
  | jnull => simp [wsShape] at h
  | jbool b => simp [wsShape] at h
  | jnum n => simp [wsShape] at h
  | jarr l => simp [wsShape] at h
  | jobj fs => simp [wsShape] at h

theorem wsLoopType_complete {v : JVal} (h : wsLoopType v = true) :
    ∃ ty, pLoopType v = some ty := by
  cases v with
  | jstr s =>
    simp only [wsLoopType, Bool.or_eq_true, beq_iff_eq] at h
    rcases h with h | h <;> subst h
    · exact ⟨.R, rfl⟩
    · exact ⟨.B, rfl⟩
  | jnull => simp [wsLoopType] at h
  | jbool b => simp [wsLoopType] at h
  | jnum n => simp [wsLoopType] at h
  | jarr l => simp [wsLoopType] at h
  | jobj fs => simp [wsLoopType] at h

theorem wsFlowStyle_complete {v : JVal} (h : wsFlowStyle v = true) :
    ∃ ty, pFlowStyle v = some ty := by
  cases v with
  | jstr s =>
    simp only [wsFlowStyle, Bool.or_eq_true, beq_iff_eq] at h
    rcases h with h | h <;> subst h
    · exact ⟨.line, rfl⟩
    · exact ⟨.tube, rfl⟩
  | jnull => simp [wsFlowStyle] at h
  | jbool b => simp [wsFlowStyle] at h
  | jnum n => simp [wsFlowStyle] at h
  | jarr l => simp [wsFlowStyle] at h
  | jobj fs => simp [wsFlowStyle] at h

/-- A well-shaped required field parses. -/
theorem wsReq_reqField {fs : List (String × JVal)} {k : String} {w : JVal → Bool}
    {α : Type} {p : JVal → Option α}
    (hc : ∀ u, w u = true → ∃ a, p u = some a) (h : wsReq fs k w = true) :
    ∃ a, reqField fs k p = some a := by
  cases hg : getKey fs k with
  | none =>
    unfold wsReq at h
    rw [hg] at h
    cases h
  | some v =>
    have hv : w v = true := by
      unfold wsReq at h
      rw [hg] at h
      exact h
    obtain ⟨a, ha⟩ := hc v hv
    refine ⟨a, ?_⟩
    unfold reqField
    rw [hg]
    exact ha

/-- A well-shaped optional field parses. -/
theorem wsOpt_optField {fs : List (String × JVal)} {k : String} {w : JVal → Bool}
    {α : Type} {p : JVal → Option α}
    (hc : ∀ u, w u = true → ∃ a, p u = some a) (h : wsOpt fs k w = true) :
    ∃ o, optField fs k p = some o := by
  cases hg : getKey fs k with
  | none =>
    refine ⟨none, ?_⟩
    unfold optField
    rw [hg]
  | some v =>
    have hv : w v = true := by
      unfold wsOpt at h
      rw [hg] at h
      exact h
    obtain ⟨a, ha⟩ := hc v hv
    refine ⟨some a, ?_⟩
    unfold optField
    rw [hg]
    show (p v).map some = some (some a)
    rw [ha]
    rfl

theorem pListAux_complete {α : Type} {p : JVal → Option α} {w : JVal → Bool}
    (hc : ∀ u, w u = true → ∃ a, p u = some a) :
    ∀ {items : List JVal}, items.all w = true → ∃ l, pListAux p items = some l := by
  intro items
  induction items with
  | nil => intro h; exact ⟨[], rfl⟩
  | cons x xs ih =>
    intro h
    rw [List.all_cons, Bool.and_eq_true] at h
    obtain ⟨a, ha⟩ := hc x h.1
    obtain ⟨l, hl⟩ := ih h.2
    refine ⟨a :: l, ?_⟩
    show ((p x).bind fun b => (pListAux p xs).bind fun bs => some (b :: bs)) = some (a :: l)
    rw [ha, hl]
    rfl

theorem wsList_complete {α : Type} {p : JVal → Option α} {w : JVal → Bool}
    (hc : ∀ u, w u = true → ∃ a, p u = some a) {v : JVal} (h : wsList w v = true) :
    ∃ l, pList p v = some l := by
  cases v with
  | jarr items => exact pListAux_complete hc (by simpa [wsList] using h)
  | jnull => simp [wsList] at h
  | jbool b => simp [wsList] at h
  | jnum n => simp [wsList] at h
  | jstr s => simp [wsList] at h
  | jobj fs => simp [wsList] at h

theorem wsNode_complete {v : JVal} (h : wsNode v = true) : ∃ n, pNode v = some n := by
  cases v with
  | jobj fs =>
    simp only [wsNode, Bool.and_eq_true] at h
    obtain ⟨⟨⟨⟨⟨⟨h1, h2⟩, h3⟩, h4⟩, h5⟩, h6⟩, h7⟩ := h
    obtain ⟨i, e1⟩ := wsReq_reqField (fun u hu => wsStr1_complete hu) h1
    obtain ⟨sh, e2⟩ := wsReq_reqField (fun u hu => wsShape_complete hu) h2
    obtain ⟨pos, e3⟩ := wsReq_reqField (fun u hu => wsVec3_complete hu) h3
    obtain ⟨col, e4⟩ := wsReq_reqField (fun u hu => wsStr_complete hu) h4
    obtain ⟨it, e5⟩ := wsReq_reqField (fun u hu => wsNum_complete hu) h5
    obtain ⟨op, e6⟩ := wsReq_reqField (fun u hu => wsNum_complete hu) h6
    obtain ⟨sc, e7⟩ := wsOpt_optField (fun u hu => wsNum_complete hu) h7
    exact ⟨⟨i, sh, pos, col, it, op, sc⟩, by simp [pNode, e1, e2, e3, e4, e5, e6, e7]⟩
  | jnull => simp [wsNode] at h
  | jbool b => simp [wsNode] at h
  | jnum n => simp [wsNode] at h
  | jstr s => simp [wsNode] at h
  | jarr l => simp [wsNode] at h

theorem wsLoop_complete {v : JVal} (h : wsLoop v = true) : ∃ l, pLoop v = some l := by
  cases v with
  | jobj fs =>
    simp only [wsLoop, Bool.and_eq_true] at h
    obtain ⟨⟨⟨⟨⟨⟨⟨h1, h2⟩, h3⟩, h4⟩, h5⟩, h6⟩, h7⟩, h8⟩ := h
    obtain ⟨i, e1⟩ := wsReq_reqField (fun u hu => wsStr1_complete hu) h1
    obtain ⟨ty, e2⟩ := wsReq_reqField (fun u hu => wsLoopType_complete hu) h2
    obtain ⟨ce, e3⟩ := wsReq_reqField (fun u hu => wsVec3_complete hu) h3
    obtain ⟨ra, e4⟩ := wsReq_reqField (fun u hu => wsNum_complete hu) h4
    obtain ⟨it, e5⟩ := wsReq_reqField (fun u hu => wsNum_complete hu) h5
    obtain ⟨fsp, e6⟩ := wsReq_reqField (fun u hu => wsNum_complete hu) h6
    obtain ⟨bo, e7⟩ := wsOpt_optField (fun u hu => wsNum_complete hu) h7
    obtain ⟨de, e8⟩ := wsOpt_optField (fun u hu => wsNum_complete hu) h8
    exact ⟨⟨i, ty, ce, ra, it, fsp, bo, de⟩,
      by simp [pLoop, e1, e2, e3, e4, e5, e6, e7, e8]⟩
  | jnull => simp [wsLoop] at h
  | jbool b => simp [wsLoop] at h
  | jnum n => simp [wsLoop] at h
  | jstr s => simp [wsLoop] at h
  | jarr l => simp [wsLoop] at h

theorem wsLever_complete {v : JVal} (h : wsLever v = true) : ∃ l, pLever v = some l := by
  cases v with
  | jobj fs =>
    simp only [wsLever, Bool.and_eq_true] at h
    obtain ⟨⟨⟨h1, h2⟩, h3⟩, h4⟩ := h
    obtain ⟨i, e1⟩ := wsReq_reqField (fun u hu => wsStr1_complete hu) h1
    obtain ⟨ta, e2⟩ := wsReq_reqField (fun u hu => wsStr1_complete hu) h2
    obtain ⟨pos, e3⟩ := wsReq_reqField (fun u hu => wsVec3_complete hu) h3
    obtain ⟨st, e4⟩ := wsReq_reqField (fun u hu => wsNum_complete hu) h4
    exact ⟨⟨i, ta, pos, st⟩, by simp [pLever, e1, e2, e3, e4]⟩
  | jnull => simp [wsLever] at h
  | jbool b => simp [wsLever] at h
  | jnum n => simp [wsLever] at h
  | jstr s => simp [wsLever] at h
  | jarr l => simp [wsLever] at h

theorem wsFlow_complete {v : JVal} (h : wsFlow v = true) : ∃ f, pFlow v = some f := by
  cases v with
  | jobj fs =>
    simp only [wsFlow, Bool.and_eq_true] at h
    obtain ⟨⟨⟨⟨⟨⟨h1, h2⟩, h3⟩, h4⟩, h5⟩, h6⟩, h7⟩ := h
    obtain ⟨i, e1⟩ := wsReq_reqField (fun u hu => wsStr1_complete hu) h1
    obtain ⟨fr, e2⟩ := wsReq_reqField (fun u hu => wsStr1_complete hu) h2
    obtain ⟨tg, e3⟩ := wsReq_reqField (fun u hu => wsStr1_complete hu) h3
    obtain ⟨ty, e4⟩ := wsReq_reqField (fun u hu => wsFlowStyle_complete hu) h4
    obtain ⟨sp, e5⟩ := wsReq_reqField (fun u hu => wsNum_complete hu) h5
    obtain ⟨it, e6⟩ := wsOpt_optField (fun u hu => wsNum_complete hu) h6
    obtain ⟨co, e7⟩ := wsOpt_optField (fun u hu => wsStr_complete hu) h7
    exact ⟨⟨i, fr, tg, ty, sp, it, co⟩, by simp [pFlow, e1, e2, e3, e4, e5, e6, e7]⟩
  | jnull => simp [wsFlow] at h
  | jbool b => simp [wsFlow] at h
  | jnum n => simp [wsFlow] at h
  | jstr s => simp [wsFlow] at h
  | jarr l => simp [wsFlow] at h

theorem wsField_complete {v : JVal} (h : wsField v = true) : ∃ f, pField v = some f := by
  cases v with
  | jobj fs =>
    simp only [wsField, Bool.and_eq_true] at h
    obtain ⟨⟨h1, h2⟩, h3⟩ := h
    obtain ⟨ch, e1⟩ := wsReq_reqField (fun u hu => wsNum_complete hu) h1
    obtain ⟨de, e2⟩ := wsReq_reqField (fun u hu => wsNum_complete hu) h2
    obtain ⟨no, e3⟩ := wsReq_reqField (fun u hu => wsNum_complete hu) h3
    exact ⟨⟨ch, de, no⟩, by simp [pField, e1, e2, e3]⟩
  | jnull => simp [wsField] at h
  | jbool b => simp [wsField] at h
  | jnum n => simp [wsField] at h
  | jstr s => simp [wsField] at h
  | jarr l => simp [wsField] at h

theorem wellShaped_complete {v : JVal} (h : wellShaped v = true) :
    ∃ d, pState v = some d := by
  cases v with
  | jobj fs =>
    simp only [wellShaped, Bool.and_eq_true] at h
    obtain ⟨⟨⟨⟨⟨⟨h1, h2⟩, h3⟩, h4⟩, h5⟩, h6⟩, h7⟩ := h
    obtain ⟨t, e1⟩ := wsOpt_optField (fun u hu => wsNum_complete hu) h1
    obtain ⟨fo, e2⟩ := wsOpt_optField (fun u hu => wsStr_complete hu) h2
    obtain ⟨ns, e3⟩ := wsReq_reqField
      (fun u hu => wsList_complete (fun u2 hu2 => wsNode_complete hu2) hu) h3
    obtain ⟨ls, e4⟩ := wsReq_reqField
      (fun u hu => wsList_complete (fun u2 hu2 => wsLoop_complete hu2) hu) h4
    obtain ⟨lv, e5⟩ := wsReq_reqField
      (fun u hu => wsList_complete (fun u2 hu2 => wsLever_complete hu2) hu) h5
    obtain ⟨fl, e6⟩ := wsOpt_optField
      (fun u hu => wsList_complete (fun u2 hu2 => wsFlow_complete hu2) hu) h6
    obtain ⟨fi, e7⟩ := wsOpt_optField (fun u hu => wsField_complete hu) h7
    exact ⟨⟨t, fo, ns, ls, lv, fl, fi⟩, by simp [pState, e1, e2, e3, e4, e5, e6, e7]⟩
  | jnull => simp [wellShaped] at h
  | jbool b => simp [wellShaped] at h
  | jnum n => simp [wellShaped] at h
  | jstr s => simp [wellShaped] at h
  | jarr l => simp [wellShaped] at h

/-- C3 (amended): for every structurally well-shaped payload — where
zod's taxonomy counts a NaN-valued numeric field as a *type* mismatch, so
well-shapedness excludes NaN but allows every other numeric value
including ±Infinity — validation succeeds and normalizes rather than
rejects, and every position/center coordinate of the output is a non-NaN
number.  Infinite coordinates are NOT coerced to 0: they pass through
(see the counterexample). -/
theorem c3_validation_amended (x : JVal) (h : wellShaped x = true) :
    ∃ d, parseVisualState x = .ok d ∧
      (∀ n ∈ d.nodes, vecNoNaN n.pos) ∧
      (∀ l ∈ d.loops, vecNoNaN l.center) ∧
      (∀ l ∈ d.levers, vecNoNaN l.pos) := by
  obtain ⟨d0, hd0⟩ := wellShaped_complete h
  refine ⟨normalizeState d0, ?_, ?_, ?_, ?_⟩
  · unfold parseVisualState
    rw [hd0]
  · intro n hn
    simp only [normalizeState, List.mem_map] at hn
    obtain ⟨n0, _, rfl⟩ := hn
    exact clampVec3_noNaN _
  · intro l hl
    simp only [normalizeState, List.mem_map] at hl
    obtain ⟨l0, _, rfl⟩ := hl
    exact clampVec3_noNaN _
  · intro l hl
    simp only [normalizeState, List.mem_map] at hl
    obtain ⟨l0, _, rfl⟩ := hl
    exact clampVec3_noNaN _

/-- Witness for C3 (amended): the payload with an infinite coordinate is
well-shaped and parses with NaN-free positions. -/
theorem c3_witness :
    wellShaped infPosPayload = true ∧
    (∃ d, parseVisualState infPosPayload = .ok d ∧
      (∀ n ∈ d.nodes, vecNoNaN n.pos) ∧
      (∀ l ∈ d.loops, vecNoNaN l.center) ∧
      (∀ l ∈ d.levers, vecNoNaN l.pos)) :=
  ⟨rfl, c3_validation_amended infPosPayload rfl⟩

/-- Counterexample to C3 as stated: a NaN coordinate is rejected by the
schema (a "numeric magnitude" the claim says must be accepted), and an
Infinity coordinate survives into the output, which the claim says must be
a finite number coerced to 0. -/
theorem c3_counterexample :
    parseVisualState nanPosPayload = .error "invalid visual state" ∧
    parseVisualState infPosPayload = .ok infPosParsed ∧
    infPosParsed.nodes.map (fun n => n.pos.1.isFinite) = [false] :=
  ⟨rfl, rfl, rfl⟩
